import Mathlib

/-!
Shallow embedding of the foreign-object reification engine of
`python-gdb.py`: the gdb extension that reconstructs proxy values for
CPython objects living in a debugged (foreign) process.

Foreign memory is modelled as a finite association list from addresses to
object records.  A field whose value is `none` models a location whose
foreign-memory read fails (gdb raises `RuntimeError`); `field` on a NULL
pointer raises `NullPyObjectPtr` (a `RuntimeError` subclass), modelled by
the `RErr.nullObject` tag.  Arrays (`ob_item`, `ob_digit`, `ob_sval`,
`ma_table`, ...) are modelled as Lean lists; an in-range read returns the
list entry and an out-of-range read returns the default 0 (a read of
whatever bytes sit there, as in the C process image).
-/

namespace PyGdb

abbrev Addr := Nat

/-- Exceptions crossing the decoder layer.  `nullObject` models
`NullPyObjectPtr` (raised by `field` on a NULL pointer), `readFail` models
a gdb `RuntimeError` from an unreadable or unresolvable location, and
`assertFail` models Python's `AssertionError`, which an
`except RuntimeError` handler does *not* catch. -/
inductive RErr where
  | nullObject
  | readFail
  | assertFail
deriving DecidableEq, Repr

/-- The fields of a `PyTypeObject` that the engine reads.  `none` models a
failing foreign read of that field. -/
structure TypeObj where
  tp_name : Option String
  tp_flags : Option Nat
  tp_dictoffset : Option Int
  tp_basicsize : Option Int
  tp_itemsize : Option Int
deriving DecidableEq, Repr

/-- One foreign object record: the layout variants the decoders read.
Each constructor lists exactly the fields the corresponding decoder
accesses in the source.  `ob_type` is the header type pointer. -/
inductive Obj where
  | intObj (ob_type : Option Addr) (ob_ival : Option Int)
  | boolObj (ob_type : Option Addr) (ob_ival : Option Int)
  | longObj (ob_type : Option Addr) (ob_size : Option Int) (ob_digit : List Nat)
  | strObj (ob_type : Option Addr) (ob_size : Option Int) (ob_sval : List Nat)
  | uniObj (ob_type : Option Addr) (ulen : Option Int) (ustr : List Nat)
  | listObj (ob_type : Option Addr) (ob_size : Option Int) (ob_item : List Addr)
  | tupleObj (ob_type : Option Addr) (ob_size : Option Int) (ob_item : List Addr)
  | dictObj (ob_type : Option Addr) (ma_mask : Option Int) (ma_table : List (Addr × Addr))
  | setObj (ob_type : Option Addr) (mask : Option Int) (table : List Addr)
  | heapObj (ob_type : Option Addr) (ob_size : Option Int) (dictPtr : Option Addr)
  | instObj (ob_type : Option Addr) (in_class : Option Addr) (in_dict : Option Addr)
  | classObj (ob_type : Option Addr) (cl_name : Option Addr)
  | excObj (ob_type : Option Addr) (args : Option Addr)
  | noneObj (ob_type : Option Addr)
  | typeObj (ob_type : Option Addr) (ty : TypeObj)
deriving DecidableEq, Repr

/-- A snapshot of the foreign process: finitely many mapped objects plus
the two globally probed layout facts (`gdb.lookup_type('digit').sizeof`
and `SIZEOF_VOID_P`). -/
structure Memory where
  objs : List (Addr × Obj)
  digitSize : Nat
  sizeofVoidP : Nat
deriving Repr

def lookupObj (mem : Memory) (a : Addr) : Option Obj :=
  (mem.objs.find? (fun p => p.1 == a)).map Prod.snd

def Obj.obType : Obj → Option Addr
  | .intObj t _ => t
  | .boolObj t _ => t
  | .longObj t _ _ => t
  | .strObj t _ _ => t
  | .uniObj t _ _ => t
  | .listObj t _ _ => t
  | .tupleObj t _ _ => t
  | .dictObj t _ _ => t
  | .setObj t _ _ => t
  | .heapObj t _ _ => t
  | .instObj t _ _ => t
  | .classObj t _ => t
  | .excObj t _ => t
  | .noneObj t => t
  | .typeObj t _ => t

/-- `PyObjectPtr.field('ob_type')`: fails on a NULL pointer
(`NullPyObjectPtr`) or when the header cannot be read. -/
def headerTypeAddr (mem : Memory) (a : Addr) : Except RErr Addr :=
  if a = 0 then .error .nullObject
  else
    match lookupObj mem a with
    | none => .error .readFail
    | some o =>
      match o.obType with
      | none => .error .readFail
      | some t => .ok t

/-- The reads performed inside the `try` of `subclass_from_type`:
`t.field('tp_name').string()` and `int(t.field('tp_flags'))`. -/
def readTypeNameFlags (mem : Memory) (tyAddr : Addr) : Except RErr (String × Nat) :=
  if tyAddr = 0 then .error .nullObject
  else
    match lookupObj mem tyAddr with
    | some (.typeObj _ ty) =>
      match ty.tp_name, ty.tp_flags with
      | some n, some f => .ok (n, f)
      | _, _ => .error .readFail
    | _ => .error .readFail

def Py_TPFLAGS_HEAPTYPE : Nat := 2 ^ 9
def Py_TPFLAGS_INT_SUBCLASS : Nat := 2 ^ 23
def Py_TPFLAGS_LONG_SUBCLASS : Nat := 2 ^ 24
def Py_TPFLAGS_LIST_SUBCLASS : Nat := 2 ^ 25
def Py_TPFLAGS_TUPLE_SUBCLASS : Nat := 2 ^ 26
def Py_TPFLAGS_STRING_SUBCLASS : Nat := 2 ^ 27
def Py_TPFLAGS_UNICODE_SUBCLASS : Nat := 2 ^ 28
def Py_TPFLAGS_DICT_SUBCLASS : Nat := 2 ^ 29
def Py_TPFLAGS_BASE_EXC_SUBCLASS : Nat := 2 ^ 30

/-- The decoder kinds: one per `PyObjectPtr` subclass the dispatcher can
select (`base` is `PyObjectPtr` itself; `classK` and `frameK` have no
`proxyval` override and decode like `base`). -/
inductive Kind where
  | base
  | boolK
  | classK
  | instK
  | noneK
  | frameK
  | setK
  | heapK
  | intK
  | longK
  | listK
  | tupleK
  | stringK
  | unicodeK
  | dictK
  | excK
deriving DecidableEq, Repr

/-- The `name_map` dict of `subclass_from_type`: the exact-name
special cases. -/
def name_map (tp_name : String) : Option Kind :=
  if tp_name = "bool" then some .boolK
  else if tp_name = "classobj" then some .classK
  else if tp_name = "instance" then some .instK
  else if tp_name = "NoneType" then some .noneK
  else if tp_name = "frame" then some .frameK
  else if tp_name = "set" then some .setK
  else if tp_name = "frozenset" then some .setK
  else none

/-- The flag-driven tail of `subclass_from_type`: heap flag first, then
the category flags in source order, else the base class. -/
def flagsKind (tp_flags : Nat) : Kind :=
  if tp_flags &&& Py_TPFLAGS_HEAPTYPE ≠ 0 then .heapK
  else if tp_flags &&& Py_TPFLAGS_INT_SUBCLASS ≠ 0 then .intK
  else if tp_flags &&& Py_TPFLAGS_LONG_SUBCLASS ≠ 0 then .longK
  else if tp_flags &&& Py_TPFLAGS_LIST_SUBCLASS ≠ 0 then .listK
  else if tp_flags &&& Py_TPFLAGS_TUPLE_SUBCLASS ≠ 0 then .tupleK
  else if tp_flags &&& Py_TPFLAGS_STRING_SUBCLASS ≠ 0 then .stringK
  else if tp_flags &&& Py_TPFLAGS_UNICODE_SUBCLASS ≠ 0 then .unicodeK
  else if tp_flags &&& Py_TPFLAGS_DICT_SUBCLASS ≠ 0 then .dictK
  else if tp_flags &&& Py_TPFLAGS_BASE_EXC_SUBCLASS ≠ 0 then .excK
  else .base

/-- `PyObjectPtr.subclass_from_type`: read `tp_name` and `tp_flags`
(falling back to the base class on any failure), try the exact-name map,
then the flags. -/
def subclass_from_type (mem : Memory) (tyAddr : Addr) : Kind :=
  match readTypeNameFlags mem tyAddr with
  | .error _ => .base
  | .ok (tp_name, tp_flags) =>
    match name_map tp_name with
    | some k => k
    | none => flagsKind tp_flags

/-- The classification performed by `PyObjectPtr.from_pyobject_ptr`: read
the header type pointer (any failure is caught and yields the base
class), then dispatch via `subclass_from_type`. -/
def classifyAddr (mem : Memory) (a : Addr) : Kind :=
  match headerTypeAddr mem a with
  | .error _ => .base
  | .ok t => subclass_from_type mem t

/-- `PyObjectPtr.safe_tp_name`: best-effort type name, `"unknown"` on any
failure. -/
def safe_tp_name (mem : Memory) (a : Addr) : String :=
  match headerTypeAddr mem a with
  | .error _ => "unknown"
  | .ok t =>
    if t = 0 then "unknown"
    else
      match lookupObj mem t with
      | some (.typeObj _ ty) =>
        match ty.tp_name with
        | some n => n
        | none => "unknown"
      | _ => "unknown"

/-- `safety_limit`: clamp a foreign-supplied count to the ceiling 100. -/
def safety_limit (val : Int) : Int := min val 100

/-- `safe_range`: the index sequence `xrange(safety_limit val)` (empty
for a non-positive bound). -/
def safe_range (val : Int) : List Nat := List.range (safety_limit val).toNat

/-- The proxy values the decoders build inside the debugger process.
`strv` covers both byte strings and unicode ones, `seqv true` is a tuple
and `seqv false` a list, `visitedv` is `ProxyAlreadyVisited`, `instv` is
`InstanceProxy`, `excv` is `ProxyException` and `fake` is the base
decoder's `FakeRepr`. -/
inductive Proxy where
  | intv (n : Int)
  | boolv (b : Bool)
  | nonev
  | strv (s : String)
  | seqv (isTuple : Bool) (elems : List Proxy)
  | mapv (entries : List (Proxy × Proxy))
  | setv (frozen : Bool) (elems : List Proxy)
  | instv (clName : Proxy) (attr : Proxy) (address : Nat)
  | excv (tpName : String) (args : Proxy)
  | visitedv (rep : String)
  | fake (tpName : String) (address : Nat)
deriving Repr

mutual

/-- Structural equality on proxy values, used for the Python dict-key
equality of `result[pkey] = pvalue` in the mapping decoder. -/
def Proxy.beq : Proxy → Proxy → Bool
  | .intv a, .intv b => a == b
  | .boolv a, .boolv b => a == b
  | .nonev, .nonev => true
  | .strv a, .strv b => a == b
  | .seqv t a, .seqv u b => t == u && Proxy.beqList a b
  | .mapv a, .mapv b => Proxy.beqPairs a b
  | .setv f a, .setv g b => f == g && Proxy.beqList a b
  | .instv c d n, .instv c2 d2 n2 => Proxy.beq c c2 && Proxy.beq d d2 && n == n2
  | .excv t a, .excv t2 a2 => t == t2 && Proxy.beq a a2
  | .visitedv r, .visitedv r2 => r == r2
  | .fake t n, .fake t2 n2 => t == t2 && n == n2
  | _, _ => false

def Proxy.beqList : List Proxy → List Proxy → Bool
  | [], [] => true
  | x :: xs, y :: ys => Proxy.beq x y && Proxy.beqList xs ys
  | _, _ => false

def Proxy.beqPairs : List (Proxy × Proxy) → List (Proxy × Proxy) → Bool
  | [], [] => true
  | (k, v) :: xs, (k2, v2) :: ys => Proxy.beq k k2 && Proxy.beq v v2 && Proxy.beqPairs xs ys
  | _, _ => false

end

instance : BEq Proxy := ⟨Proxy.beq⟩

/-! ### Field reads

Each reader translates one `self.field(...)` access of a decoder.  A
read fails (`RErr`) on a NULL pointer, on an unmapped address, on a
field whose value is marked unreadable, or on an object whose layout
does not carry the field at all. -/

def fieldIval (mem : Memory) (a : Addr) : Except RErr Int :=
  if a = 0 then .error .nullObject
  else
    match lookupObj mem a with
    | some (.intObj _ (some v)) => .ok v
    | some (.boolObj _ (some v)) => .ok v
    | _ => .error .readFail

def fieldObSize (mem : Memory) (a : Addr) : Except RErr Int :=
  if a = 0 then .error .nullObject
  else
    match lookupObj mem a with
    | some (.longObj _ (some n) _) => .ok n
    | some (.strObj _ (some n) _) => .ok n
    | some (.listObj _ (some n) _) => .ok n
    | some (.tupleObj _ (some n) _) => .ok n
    | some (.heapObj _ (some n) _) => .ok n
    | _ => .error .readFail

def fieldDigits (mem : Memory) (a : Addr) : Except RErr (List Nat) :=
  if a = 0 then .error .nullObject
  else
    match lookupObj mem a with
    | some (.longObj _ _ ds) => .ok ds
    | _ => .error .readFail

def fieldSval (mem : Memory) (a : Addr) : Except RErr (List Nat) :=
  if a = 0 then .error .nullObject
  else
    match lookupObj mem a with
    | some (.strObj _ _ bs) => .ok bs
    | _ => .error .readFail

def fieldUniLength (mem : Memory) (a : Addr) : Except RErr Int :=
  if a = 0 then .error .nullObject
  else
    match lookupObj mem a with
    | some (.uniObj _ (some n) _) => .ok n
    | _ => .error .readFail

def fieldUniStr (mem : Memory) (a : Addr) : Except RErr (List Nat) :=
  if a = 0 then .error .nullObject
  else
    match lookupObj mem a with
    | some (.uniObj _ _ us) => .ok us
    | _ => .error .readFail

/-- `self[i]` of the list/tuple decoders: `self.field('ob_item')[i]`. -/
def fieldItem (mem : Memory) (a : Addr) (i : Nat) : Except RErr Addr :=
  if a = 0 then .error .nullObject
  else
    match lookupObj mem a with
    | some (.listObj _ _ items) => .ok (items.getD i 0)
    | some (.tupleObj _ _ items) => .ok (items.getD i 0)
    | _ => .error .readFail

def fieldMaMask (mem : Memory) (a : Addr) : Except RErr Int :=
  if a = 0 then .error .nullObject
  else
    match lookupObj mem a with
    | some (.dictObj _ (some m) _) => .ok m
    | _ => .error .readFail

/-- `(self.field('ma_table') + i)['me_key']`. -/
def fieldSlotKey (mem : Memory) (a : Addr) (i : Nat) : Except RErr Addr :=
  if a = 0 then .error .nullObject
  else
    match lookupObj mem a with
    | some (.dictObj _ _ table) => .ok (table.getD i (0, 0)).1
    | _ => .error .readFail

/-- `(self.field('ma_table') + i)['me_value']`. -/
def fieldSlotValue (mem : Memory) (a : Addr) (i : Nat) : Except RErr Addr :=
  if a = 0 then .error .nullObject
  else
    match lookupObj mem a with
    | some (.dictObj _ _ table) => .ok (table.getD i (0, 0)).2
    | _ => .error .readFail

def fieldSetMask (mem : Memory) (a : Addr) : Except RErr Int :=
  if a = 0 then .error .nullObject
  else
    match lookupObj mem a with
    | some (.setObj _ (some m) _) => .ok m
    | _ => .error .readFail

def fieldSetTable (mem : Memory) (a : Addr) : Except RErr (List Addr) :=
  if a = 0 then .error .nullObject
  else
    match lookupObj mem a with
    | some (.setObj _ _ t) => .ok t
    | _ => .error .readFail

def fieldInClass (mem : Memory) (a : Addr) : Except RErr Addr :=
  if a = 0 then .error .nullObject
  else
    match lookupObj mem a with
    | some (.instObj _ (some c) _) => .ok c
    | _ => .error .readFail

def fieldInDict (mem : Memory) (a : Addr) : Except RErr Addr :=
  if a = 0 then .error .nullObject
  else
    match lookupObj mem a with
    | some (.instObj _ _ (some d)) => .ok d
    | _ => .error .readFail

def fieldClName (mem : Memory) (a : Addr) : Except RErr Addr :=
  if a = 0 then .error .nullObject
  else
    match lookupObj mem a with
    | some (.classObj _ (some n)) => .ok n
    | _ => .error .readFail

def fieldArgs (mem : Memory) (a : Addr) : Except RErr Addr :=
  if a = 0 then .error .nullObject
  else
    match lookupObj mem a with
    | some (.excObj _ (some ar)) => .ok ar
    | _ => .error .readFail

/-- `typeobj.field('tp_dictoffset')` of the heap-instance decoder. -/
def fieldDictoffset (mem : Memory) (tyAddr : Addr) : Except RErr Int :=
  if tyAddr = 0 then .error .nullObject
  else
    match lookupObj mem tyAddr with
    | some (.typeObj _ ty) =>
      match ty.tp_dictoffset with
      | some d => .ok d
      | none => .error .readFail
    | _ => .error .readFail

/-- `tp_basicsize` and `tp_itemsize`, read by `_PyObject_VAR_SIZE`. -/
def fieldBasicItem (mem : Memory) (tyAddr : Addr) : Except RErr (Int × Int) :=
  if tyAddr = 0 then .error .nullObject
  else
    match lookupObj mem tyAddr with
    | some (.typeObj _ ty) =>
      match ty.tp_basicsize, ty.tp_itemsize with
      | some b, some it => .ok (b, it)
      | _, _ => .error .readFail
    | _ => .error .readFail

/-- The dereference of the computed instance-dict slot,
`dictptr.dereference()` in `HeapTypeObjectPtr.proxyval`. -/
def fieldDictPtr (mem : Memory) (a : Addr) : Except RErr Addr :=
  if a = 0 then .error .nullObject
  else
    match lookupObj mem a with
    | some (.heapObj _ _ (some p)) => .ok p
    | _ => .error .readFail

/-! ### The recursive decoder -/

/-- Result of one `proxyval` invocation: either the proxy value and the
visited set as it stands afterwards, or the escaping exception paired
with the visited set at the moment it was raised (the Python set is
mutated in place, so insertions survive a raise). -/
abbrev Res := Except (RErr × List Addr) (Proxy × List Addr)

/-- The visited set after a `proxyval` invocation (or one of its loop
helpers), whether it returned or raised. -/
def visOut {β : Type} (r : Except (RErr × List Addr) (β × List Addr)) : List Addr :=
  match r with
  | .ok (_, v) => v
  | .error (_, v) => v

/-- The element loop of the list/tuple decoders: run `step` on each entry
in order, threading the visited set; any exception propagates. -/
def runSeq (step : α → List Addr → Res) : List α → List Addr → Except (RErr × List Addr) (List Proxy × List Addr)
  | [], vis => .ok ([], vis)
  | a :: rest, vis =>
    match step a vis with
    | .error e => .error e
    | .ok (p, vis1) =>
      match runSeq step rest vis1 with
      | .error e => .error e
      | .ok (ps, vis2) => .ok (p :: ps, vis2)

/-- Python's `result[pkey] = pvalue` on an association list: an existing
equal key keeps its original key object and takes the new value. -/
def assocUpdate (l : List (Proxy × Proxy)) (k v : Proxy) : List (Proxy × Proxy) :=
  match l with
  | [] => [(k, v)]
  | (k2, v2) :: rest =>
    if Proxy.beq k2 k then (k2, v) :: rest else (k2, v2) :: assocUpdate rest k v

/-- The slot loop of the mapping decoder: for each slot index, read the
value pointer, skip NULL values, read the key pointer, reify the value
then the key (the Python assignment evaluates its right-hand side
first), and store into the result dict. -/
def runDict (readK readV : Nat → Except RErr Addr) (step : Addr → List Addr → Res) :
    List Nat → List Addr → List (Proxy × Proxy) → Except (RErr × List Addr) (List (Proxy × Proxy) × List Addr)
  | [], vis, acc => .ok (acc, vis)
  | i :: rest, vis, acc =>
    match readV i with
    | .error e => .error (e, vis)
    | .ok vptr =>
      if vptr = 0 then runDict readK readV step rest vis acc
      else
        match readK i with
        | .error e => .error (e, vis)
        | .ok kptr =>
          match step vptr vis with
          | .error e => .error e
          | .ok (pval, vis1) =>
            match step kptr vis1 with
            | .error e => .error e
            | .ok (pkey, vis2) => runDict readK readV step rest vis2 (assocUpdate acc pkey pval)

/-- The slot loop of the set decoder: skip NULL keys, reify the rest and
drop any that decode to the `'<dummy key>'` tombstone string. -/
def runSet (keyAt : Nat → Addr) (step : Addr → List Addr → Res) :
    List Nat → List Addr → List Proxy → Except (RErr × List Addr) (List Proxy × List Addr)
  | [], vis, acc => .ok (acc, vis)
  | i :: rest, vis, acc =>
    let key := keyAt i
    if key ≠ 0 then
      match step key vis with
      | .error e => .error e
      | .ok (kp, vis1) =>
        if Proxy.beq kp (Proxy.strv "<dummy key>") then runSet keyAt step rest vis1 acc
        else runSet keyAt step rest vis1 (acc ++ [kp])
    else runSet keyAt step rest vis acc

/-- `_PyObject_VAR_SIZE`: `(tp_basicsize + nitems*tp_itemsize +
(SIZEOF_VOID_P-1)) & ~(SIZEOF_VOID_P-1)`, cast to `size_t`.  Clearing the
low bits of a two's-complement value rounds down to a multiple of `S`,
which on `Int` is `x - x % S` (`%` is `emod`); the `size_t` cast reduces
modulo `2 ^ (8 * SIZEOF_VOID_P)`. -/
def pyObjectVarSize (sizeofVoidP : Nat) (tp_basicsize tp_itemsize nitems : Int) : Int :=
  let S : Int := (sizeofVoidP : Int)
  let raw : Int := tp_basicsize + nitems * tp_itemsize + (S - 1)
  (raw - raw % S) % ((2 : Int) ^ (8 * sizeofVoidP))

/-- The negative-`tp_dictoffset` adjustment inside
`HeapTypeObjectPtr.proxyval`: read the variable-object `ob_size`, round
the total object size via `_PyObject_VAR_SIZE` and add it to the offset;
the two `assert` statements become `assertFail` (an `AssertionError` is
not a `RuntimeError`, so the enclosing handler will not catch it). -/
def adjustedDictoffset (mem : Memory) (a tyAddr : Addr) (dictoffset : Int) : Except RErr Int :=
  if dictoffset < 0 then
    match fieldObSize mem a with
    | .error e => .error e
    | .ok tsize0 =>
      let tsize := if tsize0 < 0 then -tsize0 else tsize0
      match fieldBasicItem mem tyAddr with
      | .error e => .error e
      | .ok (b, it) =>
        let d := dictoffset + pyObjectVarSize mem.sizeofVoidP b it tsize
        if ¬ (d > 0) then .error .assertFail
        else if ¬ (d % (mem.sizeofVoidP : Int) = 0) then .error .assertFail
        else .ok d
  else .ok dictoffset

/-- The `try` block of `HeapTypeObjectPtr.proxyval`: locate and reify the
instance attribute dict.  `step` is the recursive `proxyval` applied to
the dict pointer.  A zero `tp_dictoffset` leaves `attr_dict` as the empty
dict. -/
def heapAttempt (mem : Memory) (step : Addr → List Addr → Res) (a : Addr) (vis : List Addr) : Res :=
  match headerTypeAddr mem a with
  | .error e => .error (e, vis)
  | .ok tyAddr =>
    match fieldDictoffset mem tyAddr with
    | .error e => .error (e, vis)
    | .ok dictoffset =>
      if dictoffset = 0 then .ok (.mapv [], vis)
      else
        match adjustedDictoffset mem a tyAddr dictoffset with
        | .error e => .error (e, vis)
        | .ok _ =>
          match fieldDictPtr mem a with
          | .error e => .error (e, vis)
          | .ok p => step p vis

/-- The magnitude-and-sign computation of `PyLongObjectPtr.proxyval` for
a nonzero `ob_size`: sum the safety-bounded digits weighted by
`2^(SHIFT*i)` and negate when `ob_size < 0`. -/
def longMagSigned (shift : Nat) (ob_size : Int) (ds : List Nat) : Int :=
  let s : Int := ((safe_range (ob_size.natAbs : Int)).map
    (fun i => ((ds.getD i 0 : Nat) : Int) * 2 ^ (shift * i))).sum
  if ob_size < 0 then -s else s

/-- The `SHIFT` probe: 15 when `sizeof(digit) == 2`, else 30. -/
def pyLongShift (digitSize : Nat) : Nat := if digitSize = 2 then 15 else 30

/-- `proxyval`, fuel-indexed: dispatch on the classification of `a` and
run the selected decoder, threading the visited set.  Every recursive
call runs at one lower fuel; the stabilisation theorem below shows the
result is independent of the fuel once it exceeds the number of
unvisited mapped addresses, which is how the source's unbounded
recursion terminates on cyclic graphs. -/
def proxyval (mem : Memory) : Nat → Addr → List Addr → Res
  | 0, _, vis => .error (.readFail, vis)
  | fuel + 1, a, vis =>
    match classifyAddr mem a with
    | .base => .ok (.fake (safe_tp_name mem a) a, vis)
    | .classK => .ok (.fake (safe_tp_name mem a) a, vis)
    | .frameK => .ok (.fake (safe_tp_name mem a) a, vis)
    | .noneK => .ok (.nonev, vis)
    | .boolK =>
      match fieldIval mem a with
      | .error e => .error (e, vis)
      | .ok v => .ok (.boolv (v ≠ 0), vis)
    | .intK =>
      match fieldIval mem a with
      | .error e => .error (e, vis)
      | .ok v => .ok (.intv v, vis)
    | .longK =>
      match fieldObSize mem a with
      | .error e => .error (e, vis)
      | .ok n =>
        if n = 0 then .ok (.intv 0, vis)
        else
          match fieldDigits mem a with
          | .error e => .error (e, vis)
          | .ok ds => .ok (.intv (longMagSigned (pyLongShift mem.digitSize) n ds), vis)
    | .stringK =>
      match fieldObSize mem a with
      | .error e => .error (e, vis)
      | .ok sz =>
        match fieldSval mem a with
        | .error e => .error (e, vis)
        | .ok bs =>
          .ok (.strv (String.mk ((safe_range sz).map (fun i => Char.ofNat (bs.getD i 0)))), vis)
    | .unicodeK =>
      match fieldUniLength mem a with
      | .error e => .error (e, vis)
      | .ok len =>
        match fieldUniStr mem a with
        | .error e => .error (e, vis)
        | .ok us =>
          .ok (.strv (String.mk ((safe_range len).map (fun i => Char.ofNat (us.getD i 0)))), vis)
    | .listK =>
      if a ∈ vis then .ok (.visitedv "[...]", vis)
      else
        match fieldObSize mem a with
        | .error e => .error (e, a :: vis)
        | .ok sz =>
          match runSeq (fun i v =>
              match fieldItem mem a i with
              | .error e => .error (e, v)
              | .ok p => proxyval mem fuel p v) (safe_range sz) (a :: vis) with
          | .error e => .error e
          | .ok (ps, vis1) => .ok (.seqv false ps, vis1)
    | .tupleK =>
      if a ∈ vis then .ok (.visitedv "(...)", vis)
      else
        match fieldObSize mem a with
        | .error e => .error (e, a :: vis)
        | .ok sz =>
          match runSeq (fun i v =>
              match fieldItem mem a i with
              | .error e => .error (e, v)
              | .ok p => proxyval mem fuel p v) (safe_range sz) (a :: vis) with
          | .error e => .error e
          | .ok (ps, vis1) => .ok (.seqv true ps, vis1)
    | .dictK =>
      if a ∈ vis then .ok (.visitedv "\x7b...\x7d", vis)
      else
        match fieldMaMask mem a with
        | .error e => .error (e, a :: vis)
        | .ok m =>
          match runDict (fieldSlotKey mem a) (fieldSlotValue mem a) (proxyval mem fuel)
              (safe_range (m + 1)) (a :: vis) [] with
          | .error e => .error e
          | .ok (entries, vis1) => .ok (.mapv entries, vis1)
    | .setK =>
      if a ∈ vis then .ok (.visitedv (safe_tp_name mem a ++ "(...)"), vis)
      else
        match fieldSetTable mem a with
        | .error e => .error (e, a :: vis)
        | .ok table =>
          match fieldSetMask mem a with
          | .error e => .error (e, a :: vis)
          | .ok m =>
            match runSet (fun i => table.getD i 0) (proxyval mem fuel)
                (safe_range (m + 1)) (a :: vis) [] with
            | .error e => .error e
            | .ok (ms, vis1) => .ok (.setv (safe_tp_name mem a == "frozenset") ms, vis1)
    | .heapK =>
      if a ∈ vis then .ok (.visitedv "<...>", vis)
      else
        match heapAttempt mem (proxyval mem fuel) a (a :: vis) with
        | .ok (d, vis1) => .ok (.instv (.strv (safe_tp_name mem a)) d a, vis1)
        | .error (.assertFail, visE) => .error (.assertFail, visE)
        | .error (_, visE) => .ok (.instv (.strv (safe_tp_name mem a)) (.mapv []) a, visE)
    | .instK =>
      if a ∈ vis then .ok (.visitedv "<...>", vis)
      else
        match fieldInClass mem a with
        | .error e => .error (e, a :: vis)
        | .ok inClassAddr =>
          match fieldClName mem inClassAddr with
          | .error e => .error (e, a :: vis)
          | .ok clNameAddr =>
            match proxyval mem fuel clNameAddr (a :: vis) with
            | .error e => .error e
            | .ok (clName, vis1) =>
              match fieldInDict mem a with
              | .error e => .error (e, vis1)
              | .ok inDictAddr =>
                match proxyval mem fuel inDictAddr vis1 with
                | .error e => .error e
                | .ok (d, vis2) => .ok (.instv clName d a, vis2)
    | .excK =>
      if a ∈ vis then .ok (.visitedv "(...)", vis)
      else
        match fieldArgs mem a with
        | .error e => .error (e, a :: vis)
        | .ok argsAddr =>
          match proxyval mem fuel argsAddr (a :: vis) with
          | .error e => .error e
          | .ok (ap, vis1) => .ok (.excv (safe_tp_name mem a) ap, vis1)

/-- Fuel sufficient for any reification over `mem`: more than the number
of mapped objects. -/
def fuelFor (mem : Memory) : Nat := mem.objs.length + 1

/-- The top-level entry point: `from_pyobject_ptr(v).proxyval(set())` as
invoked by `PyObjectPtrPrinter.to_string`. -/
def reify (mem : Memory) (a : Addr) : Res := proxyval mem (fuelFor mem) a []

/-- `FakeRepr.__repr__`: the literal `0x0` for the NULL pointer, else
`<tp_name at remote 0xADDR>` (`%x` renders lowercase hex, which is what
`Nat.toDigits 16` produces). -/
def fakeRepr (tp_name : String) (address : Nat) : String :=
  if address = 0 then "0x0"
  else "<" ++ tp_name ++ " at remote 0x" ++ String.mk (Nat.toDigits 16 address) ++ ">"

/-- `co_lnotab[::2]` zipped with `co_lnotab[1::2]`: consecutive
(address-delta, line-delta) byte pairs; `zip` drops a trailing lone
byte. -/
def lnotabPairs : List Nat → List (Nat × Nat)
  | a :: b :: rest => (a, b) :: lnotabPairs rest
  | _ => []

/-- The loop of `PyCodeObjectPtr.addr2line`: accumulate address deltas,
return the line accumulated so far as soon as the running address
exceeds the query, else accumulate the line delta. -/
def addr2lineLoop (addrq : Int) : List (Nat × Nat) → Int → Int → Int
  | [], _, lineno => lineno
  | (ai, li) :: rest, addr, lineno =>
    let addr1 := addr + (ai : Int)
    if addr1 > addrq then lineno
    else addr2lineLoop addrq rest addr1 (lineno + (li : Int))

/-- `PyCodeObjectPtr.addr2line`, over the decoded `co_lnotab` byte
string. -/
def addr2line (co_firstlineno : Int) (co_lnotab : List Nat) (addrq : Int) : Int :=
  addr2lineLoop addrq (lnotabPairs co_lnotab) 0 co_firstlineno

/-- The fields of `FrameInfo` that `current_line_num` consults, captured
once their (uncaught) reads in `__init__` have succeeded. -/
structure FrameRec where
  f_trace : Addr
  f_lineno : Int
  f_lasti : Int
  co_firstlineno : Int
  co_lnotab : List Nat

/-- `FrameInfo.current_line_num`: the stored `f_lineno` when a trace
hook is installed, else the line-table lookup at `f_lasti`. -/
def current_line_num (f : FrameRec) : Int :=
  if f.f_trace ≠ 0 then f.f_lineno
  else addr2line f.co_firstlineno f.co_lnotab f.f_lasti

/-! ### Spec-side characterisations -/

/-- Stated after the spec's words, for comparison with `addr2line`: the
longest prefix of the delta pairs whose running address offset never
exceeds the queried offset. -/
def pairsUpTo (q : Int) : List (Nat × Nat) → Int → List (Nat × Nat)
  | [], _ => []
  | (ai, li) :: rest, acc =>
    if acc + (ai : Int) > q then [] else (ai, li) :: pairsUpTo q rest (acc + (ai : Int))

/-- Sum of the line deltas of a pair list. -/
def lineDeltaSum (ps : List (Nat × Nat)) : Int := (ps.map (fun p => ((p.2 : Nat) : Int))).sum

/-- The claim's reading of the big-integer decoder: digits weighted by
`2^(SHIFT*i)` summed over all of `[0, |n|)` with no safety cap, negated
for `n < 0`, and 0 for `n = 0`. -/
def longValueClaim (shift : Nat) (n : Int) (ds : List Nat) : Int :=
  if n = 0 then 0
  else
    let s : Int := ∑ i in Finset.range n.natAbs, ((ds.getD i 0 : Nat) : Int) * 2 ^ (shift * i)
    if n < 0 then -s else s

/-- The amended reading: the digit sum runs over `[0, min |n| 100)`, the
safety-bounded index range the source actually iterates. -/
def longValueCapped (shift : Nat) (n : Int) (ds : List Nat) : Int :=
  if n = 0 then 0
  else
    let s : Int := ∑ i in Finset.range (min n.natAbs 100), ((ds.getD i 0 : Nat) : Int) * 2 ^ (shift * i)
    if n < 0 then -s else s

/-! ### The visited-set measure -/

/-- The mapped addresses of a memory. -/
def addrsOf (mem : Memory) : Finset Addr := (mem.objs.map Prod.fst).toFinset

/-- Number of mapped addresses not yet visited: the measure that shrinks
whenever a container decoder inserts its address before recursing. -/
def unvisited (mem : Memory) (vis : List Addr) : Nat :=
  ((addrsOf mem).filter (fun a => a ∉ vis)).card

/-- The decoder kinds whose decoders guard against cycles with the
visited set (list, tuple, mapping, set, heap instance, legacy instance,
exception). -/
def containerKind : Kind → Bool
  | .listK => true
  | .tupleK => true
  | .dictK => true
  | .setK => true
  | .heapK => true
  | .instK => true
  | .excK => true
  | _ => false

/-! ### Example memories -/

def exTyInt : Obj := .typeObj (some 100) ⟨some "int", some Py_TPFLAGS_INT_SUBCLASS, none, none, none⟩

def exTyStr : Obj := .typeObj (some 100) ⟨some "str", some Py_TPFLAGS_STRING_SUBCLASS, none, none, none⟩

def exTyList : Obj := .typeObj (some 100) ⟨some "list", some Py_TPFLAGS_LIST_SUBCLASS, none, none, none⟩

def exTyDict : Obj := .typeObj (some 100) ⟨some "dict", some Py_TPFLAGS_DICT_SUBCLASS, none, none, none⟩

def exTyLong : Obj := .typeObj (some 100) ⟨some "long", some Py_TPFLAGS_LONG_SUBCLASS, none, none, none⟩

def exTyFoo : Obj := .typeObj (some 100) ⟨some "Foo", some Py_TPFLAGS_HEAPTYPE, some 16, none, none⟩

/-- An integer object whose `ob_ival` read fails. -/
def intFailMem : Memory := ⟨[(1, .intObj (some 100) none), (100, exTyInt)], 4, 8⟩

/-- A heap instance (address 3) whose attribute dict (address 7) maps
the string `"x"` (address 2) back to the instance itself: a cyclic
object graph. -/
def cycMem : Memory := ⟨[
  (3, .heapObj (some 104) (some 0) (some 7)),
  (7, .dictObj (some 103) (some 0) [(2, 3)]),
  (2, .strObj (some 101) (some 1) [120]),
  (101, exTyStr), (103, exTyDict), (104, exTyFoo)], 4, 8⟩

/-- A mapping (mask 7, eight slots) with exactly one live slot holding
key `"a"` and value `1`; the remaining slots read as NULL/NULL. -/
def dictExMem : Memory := ⟨[
  (1, .intObj (some 100) (some 1)),
  (2, .strObj (some 101) (some 1) [97]),
  (7, .dictObj (some 103) (some 7) [(2, 1)]),
  (100, exTyInt), (101, exTyStr), (103, exTyDict)], 4, 8⟩

/-- The digit array of a big integer whose `ob_size` claims 101 digits:
digit 100 is nonzero but lies beyond the safety ceiling. -/
def longBigDigits : List Nat := List.replicate 100 0 ++ [1]

def longBigMem : Memory := ⟨[(1, .longObj (some 105) (some 101) longBigDigits), (105, exTyLong)], 2, 8⟩

/-- A small well-formed big integer: three digits 1, 2, 3. -/
def longOkMem : Memory := ⟨[(1, .longObj (some 105) (some 3) [1, 2, 3]), (105, exTyLong)], 2, 8⟩

/-- A list whose `ob_size` reads as a negative (corrupt) count. -/
def negListMem : Memory := ⟨[(5, .listObj (some 102) (some (-5)) []), (102, exTyList)], 4, 8⟩

/-- A type descriptor whose display name is `"frame"` and whose
user-defined/heap-allocated flag is also set. -/
def frameHeapMem : Memory :=
  ⟨[(20, .typeObj (some 100) ⟨some "frame", some Py_TPFLAGS_HEAPTYPE, none, none, none⟩)], 4, 8⟩

/-- A frame snapshot with an installed trace hook. -/
def frameTracedRec : FrameRec := ⟨1, 42, 7, 1, [6, 1, 8, 1]⟩

/-- The same frame fields with no trace hook: the instruction offset 50
lies past the whole line table. -/
def frameUntracedRec : FrameRec := ⟨0, 42, 50, 1, [6, 1, 8, 1]⟩

/-! ### Helper lemmas -/

theorem visOut_ok (p : Proxy) (v : List Addr) : visOut (.ok (p, v)) = v := rfl

theorem visOut_error (e : RErr × List Addr) :
    visOut (Except.error e : Res) = e.2 := rfl

theorem lookupObj_mem_addrs {mem : Memory} {a : Addr} {o : Obj}
    (h : lookupObj mem a = some o) : a ∈ addrsOf mem := by
  unfold lookupObj at h
  unfold addrsOf
  rcases hf : mem.objs.find? (fun p => p.1 == a) with _ | p
  · rw [hf] at h; simp at h
  · rw [hf] at h
    have hmem := List.mem_of_find?_eq_some hf
    have heq : p.1 = a := by
      have := List.find?_some hf
      simpa using this
    subst heq
    simp only [List.mem_toFinset, List.mem_map]
    exact ⟨p, hmem, rfl⟩

theorem classifyAddr_lookup {mem : Memory} {a : Addr}
    (h : classifyAddr mem a ≠ .base) : a ∈ addrsOf mem ∧ a ≠ 0 := by
  unfold classifyAddr headerTypeAddr at h
  by_cases h0 : a = 0
  · simp [h0] at h
  · refine ⟨?_, h0⟩
    rcases hl : lookupObj mem a with _ | o
    · rw [if_neg h0, hl] at h; simp at h
    · exact lookupObj_mem_addrs hl

theorem unvisited_antitone {mem : Memory} {v w : List Addr} (h : v ⊆ w) :
    unvisited mem w ≤ unvisited mem v := by
  unfold unvisited
  refine Finset.card_le_card ((addrsOf mem).monotone_filter_right ?_)
  intro a ha hav
  exact ha (h hav)

theorem unvisited_insert_lt {mem : Memory} {a : Addr} {vis : List Addr}
    (hmem : a ∈ addrsOf mem) (hnv : a ∉ vis) :
    unvisited mem (a :: vis) < unvisited mem vis := by
  unfold unvisited
  refine Finset.card_lt_card ⟨(addrsOf mem).monotone_filter_right ?_, ?_⟩
  · intro x hx hxv
    exact hx (List.mem_cons_of_mem a hxv)
  · intro hsub
    have hmemf : a ∈ (addrsOf mem).filter (fun x => x ∉ vis) := by
      simp [Finset.mem_filter, hmem, hnv]
    have := hsub hmemf
    simp [Finset.mem_filter] at this

theorem runSeq_vis_mono {α : Type} (step : α → List Addr → Res)
    (hstep : ∀ a v, v ⊆ visOut (step a v)) (l : List α) :
    ∀ vis, vis ⊆ visOut (runSeq step l vis) := by
  induction l with
  | nil => intro vis; simp [runSeq, visOut]
  | cons a rest ih =>
    intro vis
    simp only [runSeq]
    split
    · rename_i e heq
      have h1 := hstep a vis
      rw [heq] at h1
      exact h1
    · rename_i p vis1 heq
      have h1 : vis ⊆ vis1 := by have := hstep a vis; rwa [heq] at this
      split
      · rename_i e2 heq2
        have h3 := ih vis1
        rw [heq2] at h3
        exact h1.trans h3
      · rename_i ps vis2 heq2
        have h3 := ih vis1
        rw [heq2] at h3
        exact h1.trans h3

theorem runDict_vis_mono (readK readV : Nat → Except RErr Addr)
    (step : Addr → List Addr → Res)
    (hstep : ∀ a v, v ⊆ visOut (step a v)) (l : List Nat) :
    ∀ vis acc, vis ⊆ visOut (runDict readK readV step l vis acc) := by
  induction l with
  | nil => intro vis acc; simp [runDict, visOut]
  | cons i rest ih =>
    intro vis acc
    simp only [runDict]
    split
    · rename_i e heq
      exact List.Subset.refl vis
    · rename_i vptr heq
      split
      · exact ih vis acc
      · split
        · rename_i e heq2
          exact List.Subset.refl vis
        · rename_i kptr heq2
          split
          · rename_i e heq3
            have := hstep vptr vis; rwa [heq3] at this
          · rename_i pval vis1 heq3
            have hs1 : vis ⊆ vis1 := by have := hstep vptr vis; rwa [heq3] at this
            split
            · rename_i e heq4
              have := hstep kptr vis1; rw [heq4] at this
              exact hs1.trans this
            · rename_i pkey vis2 heq4
              have hs2 : vis1 ⊆ vis2 := by have := hstep kptr vis1; rwa [heq4] at this
              exact (hs1.trans hs2).trans (ih vis2 _)

theorem runSet_vis_mono (keyAt : Nat → Addr) (step : Addr → List Addr → Res)
    (hstep : ∀ a v, v ⊆ visOut (step a v)) (l : List Nat) :
    ∀ vis acc, vis ⊆ visOut (runSet keyAt step l vis acc) := by
  induction l with
  | nil => intro vis acc; simp [runSet, visOut]
  | cons i rest ih =>
    intro vis acc
    simp only [runSet]
    split
    · split
      · rename_i e heq
        have := hstep (keyAt i) vis; rwa [heq] at this
      · rename_i kp vis1 heq
        have hs1 : vis ⊆ vis1 := by have := hstep (keyAt i) vis; rwa [heq] at this
        split
        · exact hs1.trans (ih vis1 acc)
        · exact hs1.trans (ih vis1 _)
    · exact ih vis acc

theorem heapAttempt_vis_mono (mem : Memory) (step : Addr → List Addr → Res)
    (hstep : ∀ a v, v ⊆ visOut (step a v)) (a : Addr) (vis : List Addr) :
    vis ⊆ visOut (heapAttempt mem step a vis) := by
  unfold heapAttempt
  split
  · exact List.Subset.refl vis
  · split
    · exact List.Subset.refl vis
    · split
      · exact List.Subset.refl vis
      · split
        · exact List.Subset.refl vis
        · split
          · exact List.Subset.refl vis
          · rename_i p heq
            exact hstep p vis

theorem proxyval_vis_mono (mem : Memory) :
    ∀ (fuel : Nat) (a : Addr) (vis : List Addr), vis ⊆ visOut (proxyval mem fuel a vis) := by
  intro fuel
  induction fuel with
  | zero => intro a vis; simp [proxyval, visOut]
  | succ fuel ih =>
    intro a vis
    have hcons : vis ⊆ a :: vis := List.subset_cons_self a vis
    have hstepList : ∀ (i : Nat) (v : List Addr), v ⊆ visOut
        (match fieldItem mem a i with
         | .error e => .error (e, v)
         | .ok p => proxyval mem fuel p v) := by
      intro i v
      split
      · exact List.Subset.refl v
      · rename_i p heq
        exact ih p v
    simp only [proxyval]
    split
    · exact List.Subset.refl vis
    · exact List.Subset.refl vis
    · exact List.Subset.refl vis
    · exact List.Subset.refl vis
    · split
      · exact List.Subset.refl vis
      · exact List.Subset.refl vis
    · split
      · exact List.Subset.refl vis
      · exact List.Subset.refl vis
    · -- longK
      split
      · exact List.Subset.refl vis
      · split
        · exact List.Subset.refl vis
        · split
          · exact List.Subset.refl vis
          · exact List.Subset.refl vis
    · -- stringK
      split
      · exact List.Subset.refl vis
      · split
        · exact List.Subset.refl vis
        · exact List.Subset.refl vis
    · -- unicodeK
      split
      · exact List.Subset.refl vis
      · split
        · exact List.Subset.refl vis
        · exact List.Subset.refl vis
    · -- listK
      split
      · exact List.Subset.refl vis
      · split
        · exact hcons
        · rename_i sz heq
          have hm := runSeq_vis_mono _ hstepList (safe_range sz) (a :: vis)
          split
          · rename_i e heq2
            rw [heq2] at hm
            exact hcons.trans hm
          · rename_i ps vis1 heq2
            rw [heq2] at hm
            exact hcons.trans hm
    · -- tupleK
      split
      · exact List.Subset.refl vis
      · split
        · exact hcons
        · rename_i sz heq
          have hm := runSeq_vis_mono _ hstepList (safe_range sz) (a :: vis)
          split
          · rename_i e heq2
            rw [heq2] at hm
            exact hcons.trans hm
          · rename_i ps vis1 heq2
            rw [heq2] at hm
            exact hcons.trans hm
    · -- dictK
      split
      · exact List.Subset.refl vis
      · split
        · exact hcons
        · rename_i m heq
          have hm := runDict_vis_mono (fieldSlotKey mem a) (fieldSlotValue mem a)
            (proxyval mem fuel) ih (safe_range (m + 1)) (a :: vis) []
          split
          · rename_i e heq2
            rw [heq2] at hm
            exact hcons.trans hm
          · rename_i entries vis1 heq2
            rw [heq2] at hm
            exact hcons.trans hm
    · -- setK
      split
      · exact List.Subset.refl vis
      · split
        · exact hcons
        · rename_i table heq
          split
          · exact hcons
          · rename_i m heq2
            have hm := runSet_vis_mono (fun i => table.getD i 0)
              (proxyval mem fuel) ih (safe_range (m + 1)) (a :: vis) []
            split
            · rename_i e heq3
              rw [heq3] at hm
              exact hcons.trans hm
            · rename_i ms vis1 heq3
              rw [heq3] at hm
              exact hcons.trans hm
    · -- heapK
      split
      · exact List.Subset.refl vis
      · have hm := heapAttempt_vis_mono mem (proxyval mem fuel) ih a (a :: vis)
        split
        · rename_i d vis1 heq
          rw [heq] at hm
          exact hcons.trans hm
        · rename_i visE heq
          rw [heq] at hm
          exact hcons.trans hm
        · rename_i e visE hne heq
          rw [heq] at hm
          exact hcons.trans hm
    · -- instK
      split
      · exact List.Subset.refl vis
      · split
        · exact hcons
        · rename_i inClassAddr heq
          split
          · exact hcons
          · rename_i clNameAddr heq2
            split
            · rename_i e heq3
              have := ih clNameAddr (a :: vis)
              rw [heq3] at this
              exact hcons.trans this
            · rename_i clName vis1 heq3
              have hs1 : (a :: vis) ⊆ vis1 := by
                have := ih clNameAddr (a :: vis); rwa [heq3] at this
              split
              · exact hcons.trans hs1
              · rename_i inDictAddr heq4
                split
                · rename_i e heq5
                  have := ih inDictAddr vis1
                  rw [heq5] at this
                  exact (hcons.trans hs1).trans this
                · rename_i d vis2 heq5
                  have := ih inDictAddr vis1
                  rw [heq5] at this
                  exact (hcons.trans hs1).trans this
    · -- excK
      split
      · exact List.Subset.refl vis
      · split
        · exact hcons
        · rename_i argsAddr heq
          split
          · rename_i e heq2
            have := ih argsAddr (a :: vis)
            rw [heq2] at this
            exact hcons.trans this
          · rename_i ap vis1 heq2
            have := ih argsAddr (a :: vis)
            rw [heq2] at this
            exact hcons.trans this

theorem runSeq_congr {α : Type} (step1 step2 : α → List Addr → Res) (vis0 : List Addr)
    (hagree : ∀ a v, vis0 ⊆ v → step1 a v = step2 a v)
    (hmono : ∀ a v, v ⊆ visOut (step1 a v)) (l : List α) :
    ∀ vis, vis0 ⊆ vis → runSeq step1 l vis = runSeq step2 l vis := by
  induction l with
  | nil => intro vis h; rfl
  | cons a rest ih =>
    intro vis h
    simp only [runSeq]
    rw [← hagree a vis h]
    split
    · rfl
    · rename_i p vis1 heq
      have h1 : vis0 ⊆ vis1 := h.trans (by have := hmono a vis; rwa [heq] at this)
      rw [← ih vis1 h1]

theorem runDict_congr (readK readV : Nat → Except RErr Addr)
    (step1 step2 : Addr → List Addr → Res) (vis0 : List Addr)
    (hagree : ∀ a v, vis0 ⊆ v → step1 a v = step2 a v)
    (hmono : ∀ a v, v ⊆ visOut (step1 a v)) (l : List Nat) :
    ∀ vis acc, vis0 ⊆ vis →
      runDict readK readV step1 l vis acc = runDict readK readV step2 l vis acc := by
  induction l with
  | nil => intro vis acc h; rfl
  | cons i rest ih =>
    intro vis acc h
    simp only [runDict]
    split
    · rfl
    · rename_i vptr heqv
      split
      · exact ih vis acc h
      · split
        · rfl
        · rename_i kptr heqk
          rw [← hagree vptr vis h]
          split
          · rfl
          · rename_i pval vis1 heq1
            have h1 : vis0 ⊆ vis1 := h.trans
              (by have := hmono vptr vis; rwa [heq1] at this)
            rw [← hagree kptr vis1 h1]
            split
            · rfl
            · rename_i pkey vis2 heq2
              have h2 : vis0 ⊆ vis2 := h1.trans
                (by have := hmono kptr vis1; rwa [heq2] at this)
              exact ih vis2 _ h2

theorem runSet_congr (keyAt : Nat → Addr) (step1 step2 : Addr → List Addr → Res)
    (vis0 : List Addr)
    (hagree : ∀ a v, vis0 ⊆ v → step1 a v = step2 a v)
    (hmono : ∀ a v, v ⊆ visOut (step1 a v)) (l : List Nat) :
    ∀ vis acc, vis0 ⊆ vis →
      runSet keyAt step1 l vis acc = runSet keyAt step2 l vis acc := by
  induction l with
  | nil => intro vis acc h; rfl
  | cons i rest ih =>
    intro vis acc h
    simp only [runSet]
    split
    · rw [← hagree (keyAt i) vis h]
      split
      · rfl
      · rename_i kp vis1 heq
        have h1 : vis0 ⊆ vis1 := h.trans
          (by have := hmono (keyAt i) vis; rwa [heq] at this)
        split
        · exact ih vis1 acc h1
        · exact ih vis1 _ h1
    · exact ih vis acc h

theorem heapAttempt_congr (mem : Memory) (step1 step2 : Addr → List Addr → Res)
    (vis0 : List Addr)
    (hagree : ∀ a v, vis0 ⊆ v → step1 a v = step2 a v) (a : Addr) :
    ∀ vis, vis0 ⊆ vis → heapAttempt mem step1 a vis = heapAttempt mem step2 a vis := by
  intro vis h
  unfold heapAttempt
  split
  · rfl
  · split
    · rfl
    · split
      · rfl
      · split
        · rfl
        · split
          · rfl
          · rename_i p heq
            exact hagree p vis h

theorem proxyval_stable (mem : Memory) :
    ∀ (f g : Nat) (a : Addr) (vis : List Addr),
      unvisited mem vis < f → unvisited mem vis < g →
      proxyval mem f a vis = proxyval mem g a vis := by
  intro f
  induction f with
  | zero => intro g a vis hf hg; exact absurd hf (Nat.not_lt_zero _)
  | succ f ihf =>
    intro g a vis hf hg
    cases g with
    | zero => exact absurd hg (Nat.not_lt_zero _)
    | succ g =>
      simp only [proxyval]
      split
      · rfl
      · rfl
      · rfl
      · rfl
      · rfl
      · rfl
      · rfl
      · rfl
      · rfl
      · -- listK
        rename_i heq
        have hadom : a ∈ addrsOf mem :=
          (classifyAddr_lookup (by rw [heq]; intro hc; cases hc)).1
        split
        · rfl
        · rename_i hnv
          have hboundf : ∀ v, (a :: vis) ⊆ v → unvisited mem v < f := by
            intro v hv
            have h1 := @unvisited_antitone mem _ _ hv
            have h2 := @unvisited_insert_lt mem _ _ hadom hnv
            omega
          have hboundg : ∀ v, (a :: vis) ⊆ v → unvisited mem v < g := by
            intro v hv
            have h1 := @unvisited_antitone mem _ _ hv
            have h2 := @unvisited_insert_lt mem _ _ hadom hnv
            omega
          have hagree : ∀ (i : Nat) (v : List Addr), (a :: vis) ⊆ v →
              (match fieldItem mem a i with
               | .error e => (.error (e, v) : Res)
               | .ok p => proxyval mem f p v) =
              (match fieldItem mem a i with
               | .error e => (.error (e, v) : Res)
               | .ok p => proxyval mem g p v) := by
            intro i v hv
            split
            · rfl
            · rename_i p hp
              exact ihf g p v (hboundf v hv) (hboundg v hv)
          have hmono : ∀ (i : Nat) (v : List Addr), v ⊆ visOut
              (match fieldItem mem a i with
               | .error e => (.error (e, v) : Res)
               | .ok p => proxyval mem f p v) := by
            intro i v
            split
            · exact List.Subset.refl v
            · rename_i p hp
              exact proxyval_vis_mono mem f p v
          split
          · rfl
          · rename_i sz heqsz
            rw [← runSeq_congr _ _ (a :: vis) hagree hmono (safe_range sz) (a :: vis)
              (List.Subset.refl _)]
      · -- tupleK
        rename_i heq
        have hadom : a ∈ addrsOf mem :=
          (classifyAddr_lookup (by rw [heq]; intro hc; cases hc)).1
        split
        · rfl
        · rename_i hnv
          have hboundf : ∀ v, (a :: vis) ⊆ v → unvisited mem v < f := by
            intro v hv
            have h1 := @unvisited_antitone mem _ _ hv
            have h2 := @unvisited_insert_lt mem _ _ hadom hnv
            omega
          have hboundg : ∀ v, (a :: vis) ⊆ v → unvisited mem v < g := by
            intro v hv
            have h1 := @unvisited_antitone mem _ _ hv
            have h2 := @unvisited_insert_lt mem _ _ hadom hnv
            omega
          have hagree : ∀ (i : Nat) (v : List Addr), (a :: vis) ⊆ v →
              (match fieldItem mem a i with
               | .error e => (.error (e, v) : Res)
               | .ok p => proxyval mem f p v) =
              (match fieldItem mem a i with
               | .error e => (.error (e, v) : Res)
               | .ok p => proxyval mem g p v) := by
            intro i v hv
            split
            · rfl
            · rename_i p hp
              exact ihf g p v (hboundf v hv) (hboundg v hv)
          have hmono : ∀ (i : Nat) (v : List Addr), v ⊆ visOut
              (match fieldItem mem a i with
               | .error e => (.error (e, v) : Res)
               | .ok p => proxyval mem f p v) := by
            intro i v
            split
            · exact List.Subset.refl v
            · rename_i p hp
              exact proxyval_vis_mono mem f p v
          split
          · rfl
          · rename_i sz heqsz
            rw [← runSeq_congr _ _ (a :: vis) hagree hmono (safe_range sz) (a :: vis)
              (List.Subset.refl _)]
      · -- dictK
        rename_i heq
        have hadom : a ∈ addrsOf mem :=
          (classifyAddr_lookup (by rw [heq]; intro hc; cases hc)).1
        split
        · rfl
        · rename_i hnv
          have hboundf : ∀ v, (a :: vis) ⊆ v → unvisited mem v < f := by
            intro v hv
            have h1 := @unvisited_antitone mem _ _ hv
            have h2 := @unvisited_insert_lt mem _ _ hadom hnv
            omega
          have hboundg : ∀ v, (a :: vis) ⊆ v → unvisited mem v < g := by
            intro v hv
            have h1 := @unvisited_antitone mem _ _ hv
            have h2 := @unvisited_insert_lt mem _ _ hadom hnv
            omega
          have hagree : ∀ (p : Addr) (v : List Addr), (a :: vis) ⊆ v →
              proxyval mem f p v = proxyval mem g p v := by
            intro p v hv
            exact ihf g p v (hboundf v hv) (hboundg v hv)
          split
          · rfl
          · rename_i m heqm
            rw [← runDict_congr (fieldSlotKey mem a) (fieldSlotValue mem a) _ _ (a :: vis)
              hagree (proxyval_vis_mono mem f) (safe_range (m + 1)) (a :: vis) []
              (List.Subset.refl _)]
      · -- setK
        rename_i heq
        have hadom : a ∈ addrsOf mem :=
          (classifyAddr_lookup (by rw [heq]; intro hc; cases hc)).1
        split
        · rfl
        · rename_i hnv
          have hboundf : ∀ v, (a :: vis) ⊆ v → unvisited mem v < f := by
            intro v hv
            have h1 := @unvisited_antitone mem _ _ hv
            have h2 := @unvisited_insert_lt mem _ _ hadom hnv
            omega
          have hboundg : ∀ v, (a :: vis) ⊆ v → unvisited mem v < g := by
            intro v hv
            have h1 := @unvisited_antitone mem _ _ hv
            have h2 := @unvisited_insert_lt mem _ _ hadom hnv
            omega
          have hagree : ∀ (p : Addr) (v : List Addr), (a :: vis) ⊆ v →
              proxyval mem f p v = proxyval mem g p v := by
            intro p v hv
            exact ihf g p v (hboundf v hv) (hboundg v hv)
          split
          · rfl
          · rename_i table heqt
            split
            · rfl
            · rename_i m heqm
              rw [← runSet_congr (fun i => table.getD i 0) _ _ (a :: vis)
                hagree (proxyval_vis_mono mem f) (safe_range (m + 1)) (a :: vis) []
                (List.Subset.refl _)]
      · -- heapK
        rename_i heq
        have hadom : a ∈ addrsOf mem :=
          (classifyAddr_lookup (by rw [heq]; intro hc; cases hc)).1
        split
        · rfl
        · rename_i hnv
          have hboundf : ∀ v, (a :: vis) ⊆ v → unvisited mem v < f := by
            intro v hv
            have h1 := @unvisited_antitone mem _ _ hv
            have h2 := @unvisited_insert_lt mem _ _ hadom hnv
            omega
          have hboundg : ∀ v, (a :: vis) ⊆ v → unvisited mem v < g := by
            intro v hv
            have h1 := @unvisited_antitone mem _ _ hv
            have h2 := @unvisited_insert_lt mem _ _ hadom hnv
            omega
          have hagree : ∀ (p : Addr) (v : List Addr), (a :: vis) ⊆ v →
              proxyval mem f p v = proxyval mem g p v := by
            intro p v hv
            exact ihf g p v (hboundf v hv) (hboundg v hv)
          rw [← heapAttempt_congr mem _ _ (a :: vis) hagree a (a :: vis)
            (List.Subset.refl _)]
      · -- instK
        rename_i heq
        have hadom : a ∈ addrsOf mem :=
          (classifyAddr_lookup (by rw [heq]; intro hc; cases hc)).1
        split
        · rfl
        · rename_i hnv
          have hboundf : ∀ v, (a :: vis) ⊆ v → unvisited mem v < f := by
            intro v hv
            have h1 := @unvisited_antitone mem _ _ hv
            have h2 := @unvisited_insert_lt mem _ _ hadom hnv
            omega
          have hboundg : ∀ v, (a :: vis) ⊆ v → unvisited mem v < g := by
            intro v hv
            have h1 := @unvisited_antitone mem _ _ hv
            have h2 := @unvisited_insert_lt mem _ _ hadom hnv
            omega
          split
          · rfl
          · rename_i inClassAddr heqc
            split
            · rfl
            · rename_i clNameAddr heqn
              rw [← ihf g clNameAddr (a :: vis) (hboundf _ (List.Subset.refl _))
                (hboundg _ (List.Subset.refl _))]
              split
              · rfl
              · rename_i clName vis1 heq1
                have hs1 : (a :: vis) ⊆ vis1 := by
                  have := proxyval_vis_mono mem f clNameAddr (a :: vis)
                  rwa [heq1] at this
                split
                · rfl
                · rename_i inDictAddr heqd
                  rw [← ihf g inDictAddr vis1 (hboundf _ hs1) (hboundg _ hs1)]
      · -- excK
        rename_i heq
        have hadom : a ∈ addrsOf mem :=
          (classifyAddr_lookup (by rw [heq]; intro hc; cases hc)).1
        split
        · rfl
        · rename_i hnv
          have hboundf : ∀ v, (a :: vis) ⊆ v → unvisited mem v < f := by
            intro v hv
            have h1 := @unvisited_antitone mem _ _ hv
            have h2 := @unvisited_insert_lt mem _ _ hadom hnv
            omega
          have hboundg : ∀ v, (a :: vis) ⊆ v → unvisited mem v < g := by
            intro v hv
            have h1 := @unvisited_antitone mem _ _ hv
            have h2 := @unvisited_insert_lt mem _ _ hadom hnv
            omega
          split
          · rfl
          · rename_i argsAddr heqa
            rw [← ihf g argsAddr (a :: vis) (hboundf _ (List.Subset.refl _))
              (hboundg _ (List.Subset.refl _))]

theorem unvisited_lt_fuelFor (mem : Memory) (vis : List Addr) :
    unvisited mem vis < fuelFor mem := by
  unfold unvisited fuelFor
  have h1 : ((addrsOf mem).filter (fun a => a ∉ vis)).card ≤ (addrsOf mem).card :=
    Finset.card_le_card (Finset.filter_subset _ _)
  have h2 : (addrsOf mem).card ≤ (mem.objs.map Prod.fst).length := by
    unfold addrsOf
    exact (mem.objs.map Prod.fst).toFinset_card_le
  have h3 : (mem.objs.map Prod.fst).length = mem.objs.length := List.length_map _ _
  omega

theorem addr2lineLoop_eq (q : Int) (ps : List (Nat × Nat)) :
    ∀ (acc lineno : Int),
      addr2lineLoop q ps acc lineno = lineno + lineDeltaSum (pairsUpTo q ps acc) := by
  induction ps with
  | nil => intro acc lineno; simp [addr2lineLoop, pairsUpTo, lineDeltaSum]
  | cons p rest ih =>
    obtain ⟨ai, li⟩ := p
    intro acc lineno
    simp only [addr2lineLoop, pairsUpTo]
    by_cases h : acc + (ai : Int) > q
    · rw [if_pos h, if_pos h]
      simp [lineDeltaSum]
    · rw [if_neg h, if_neg h, ih]
      simp only [lineDeltaSum, List.map_cons, List.sum_cons]
      ring

theorem pairsUpTo_all (q : Int) (ps : List (Nat × Nat)) :
    ∀ acc : Int, acc + ((ps.map (fun p => ((p.1 : Nat) : Int))).sum) ≤ q →
      pairsUpTo q ps acc = ps := by
  induction ps with
  | nil => intro acc h; rfl
  | cons p rest ih =>
    obtain ⟨ai, li⟩ := p
    intro acc h
    simp only [List.map_cons, List.sum_cons] at h
    have hrest : (0 : Int) ≤ (rest.map (fun p => ((p.1 : Nat) : Int))).sum := by
      apply List.sum_nonneg
      intro x hx
      obtain ⟨y, hy, rfl⟩ := List.mem_map.1 hx
      exact Int.ofNat_nonneg y.1
    have hle : acc + (ai : Int) ≤ q := by omega
    simp only [pairsUpTo, if_neg (by omega : ¬ acc + (ai : Int) > q)]
    rw [ih (acc + (ai : Int)) (by omega)]

theorem sum_map_range (f : Nat → Int) (k : Nat) :
    ((List.range k).map f).sum = ∑ i in Finset.range k, f i := by
  induction k with
  | zero => simp
  | succ k ih =>
    rw [List.range_succ, List.map_append, List.sum_append, Finset.sum_range_succ, ih]
    simp

/-! ### Claim theorems -/

/-- C2: classification priority for every type descriptor.  Whenever the
name/flags read succeeds: an exact display-name match in the fixed
special-case set wins (in particular a type named `"frame"` is the frame
decoder even when the heap flag is set); otherwise the heap flag selects
the heap-instance decoder; otherwise the category flags are tested in the
fixed order integer, long-integer, list, tuple, string, unicode-text,
mapping, base-exception; otherwise the base decoder is used. -/
theorem C2_classification_priority (mem : Memory) (tyAddr : Addr) (name : String) (flags : Nat)
    (h : readTypeNameFlags mem tyAddr = .ok (name, flags)) :
    (∀ k, name_map name = some k → subclass_from_type mem tyAddr = k)
    ∧ (name = "frame" → subclass_from_type mem tyAddr = .frameK)
    ∧ (name_map "bool" = some .boolK ∧ name_map "classobj" = some .classK
        ∧ name_map "instance" = some .instK ∧ name_map "NoneType" = some .noneK
        ∧ name_map "frame" = some .frameK ∧ name_map "set" = some .setK
        ∧ name_map "frozenset" = some .setK)
    ∧ (name ≠ "bool" → name ≠ "classobj" → name ≠ "instance" → name ≠ "NoneType" →
        name ≠ "frame" → name ≠ "set" → name ≠ "frozenset" → name_map name = none)
    ∧ (name_map name = none → flags &&& Py_TPFLAGS_HEAPTYPE ≠ 0 →
        subclass_from_type mem tyAddr = .heapK)
    ∧ (name_map name = none → flags &&& Py_TPFLAGS_HEAPTYPE = 0 →
        subclass_from_type mem tyAddr = flagsKind flags)
    ∧ (flags &&& Py_TPFLAGS_HEAPTYPE = 0 →
        flags &&& Py_TPFLAGS_INT_SUBCLASS ≠ 0 → flagsKind flags = .intK)
    ∧ (flags &&& Py_TPFLAGS_HEAPTYPE = 0 → flags &&& Py_TPFLAGS_INT_SUBCLASS = 0 →
        flags &&& Py_TPFLAGS_LONG_SUBCLASS ≠ 0 → flagsKind flags = .longK)
    ∧ (flags &&& Py_TPFLAGS_HEAPTYPE = 0 → flags &&& Py_TPFLAGS_INT_SUBCLASS = 0 →
        flags &&& Py_TPFLAGS_LONG_SUBCLASS = 0 →
        flags &&& Py_TPFLAGS_LIST_SUBCLASS ≠ 0 → flagsKind flags = .listK)
    ∧ (flags &&& Py_TPFLAGS_HEAPTYPE = 0 → flags &&& Py_TPFLAGS_INT_SUBCLASS = 0 →
        flags &&& Py_TPFLAGS_LONG_SUBCLASS = 0 → flags &&& Py_TPFLAGS_LIST_SUBCLASS = 0 →
        flags &&& Py_TPFLAGS_TUPLE_SUBCLASS ≠ 0 → flagsKind flags = .tupleK)
    ∧ (flags &&& Py_TPFLAGS_HEAPTYPE = 0 → flags &&& Py_TPFLAGS_INT_SUBCLASS = 0 →
        flags &&& Py_TPFLAGS_LONG_SUBCLASS = 0 → flags &&& Py_TPFLAGS_LIST_SUBCLASS = 0 →
        flags &&& Py_TPFLAGS_TUPLE_SUBCLASS = 0 →
        flags &&& Py_TPFLAGS_STRING_SUBCLASS ≠ 0 → flagsKind flags = .stringK)
    ∧ (flags &&& Py_TPFLAGS_HEAPTYPE = 0 → flags &&& Py_TPFLAGS_INT_SUBCLASS = 0 →
        flags &&& Py_TPFLAGS_LONG_SUBCLASS = 0 → flags &&& Py_TPFLAGS_LIST_SUBCLASS = 0 →
        flags &&& Py_TPFLAGS_TUPLE_SUBCLASS = 0 → flags &&& Py_TPFLAGS_STRING_SUBCLASS = 0 →
        flags &&& Py_TPFLAGS_UNICODE_SUBCLASS ≠ 0 → flagsKind flags = .unicodeK)
    ∧ (flags &&& Py_TPFLAGS_HEAPTYPE = 0 → flags &&& Py_TPFLAGS_INT_SUBCLASS = 0 →
        flags &&& Py_TPFLAGS_LONG_SUBCLASS = 0 → flags &&& Py_TPFLAGS_LIST_SUBCLASS = 0 →
        flags &&& Py_TPFLAGS_TUPLE_SUBCLASS = 0 → flags &&& Py_TPFLAGS_STRING_SUBCLASS = 0 →
        flags &&& Py_TPFLAGS_UNICODE_SUBCLASS = 0 →
        flags &&& Py_TPFLAGS_DICT_SUBCLASS ≠ 0 → flagsKind flags = .dictK)
    ∧ (flags &&& Py_TPFLAGS_HEAPTYPE = 0 → flags &&& Py_TPFLAGS_INT_SUBCLASS = 0 →
        flags &&& Py_TPFLAGS_LONG_SUBCLASS = 0 → flags &&& Py_TPFLAGS_LIST_SUBCLASS = 0 →
        flags &&& Py_TPFLAGS_TUPLE_SUBCLASS = 0 → flags &&& Py_TPFLAGS_STRING_SUBCLASS = 0 →
        flags &&& Py_TPFLAGS_UNICODE_SUBCLASS = 0 → flags &&& Py_TPFLAGS_DICT_SUBCLASS = 0 →
        flags &&& Py_TPFLAGS_BASE_EXC_SUBCLASS ≠ 0 → flagsKind flags = .excK)
    ∧ (flags &&& Py_TPFLAGS_HEAPTYPE = 0 → flags &&& Py_TPFLAGS_INT_SUBCLASS = 0 →
        flags &&& Py_TPFLAGS_LONG_SUBCLASS = 0 → flags &&& Py_TPFLAGS_LIST_SUBCLASS = 0 →
        flags &&& Py_TPFLAGS_TUPLE_SUBCLASS = 0 → flags &&& Py_TPFLAGS_STRING_SUBCLASS = 0 →
        flags &&& Py_TPFLAGS_UNICODE_SUBCLASS = 0 → flags &&& Py_TPFLAGS_DICT_SUBCLASS = 0 →
        flags &&& Py_TPFLAGS_BASE_EXC_SUBCLASS = 0 → flagsKind flags = .base) := by
  refine ⟨?_, ?_, ?_, ?_, ?_, ?_, ?_, ?_, ?_, ?_, ?_, ?_, ?_, ?_, ?_⟩
  · intro k hk
    simp [subclass_from_type, h, hk]
  · intro hn
    subst hn
    simp [subclass_from_type, h, name_map]
  · refine ⟨rfl, rfl, rfl, rfl, rfl, rfl, rfl⟩
  · intro h1 h2 h3 h4 h5 h6 h7
    simp [name_map, h1, h2, h3, h4, h5, h6, h7]
  · intro hn hf
    simp [subclass_from_type, h, hn, flagsKind, hf]
  · intro hn hf
    simp [subclass_from_type, h, hn]
  · intro h0 h1
    simp [flagsKind, h0, h1]
  · intro h0 h1 h2
    simp [flagsKind, h0, h1, h2]
  · intro h0 h1 h2 h3
    simp [flagsKind, h0, h1, h2, h3]
  · intro h0 h1 h2 h3 h4
    simp [flagsKind, h0, h1, h2, h3, h4]
  · intro h0 h1 h2 h3 h4 h5
    simp [flagsKind, h0, h1, h2, h3, h4, h5]
  · intro h0 h1 h2 h3 h4 h5 h6
    simp [flagsKind, h0, h1, h2, h3, h4, h5, h6]
  · intro h0 h1 h2 h3 h4 h5 h6 h7
    simp [flagsKind, h0, h1, h2, h3, h4, h5, h6, h7]
  · intro h0 h1 h2 h3 h4 h5 h6 h7 h8
    simp [flagsKind, h0, h1, h2, h3, h4, h5, h6, h7, h8]
  · intro h0 h1 h2 h3 h4 h5 h6 h7 h8
    simp [flagsKind, h0, h1, h2, h3, h4, h5, h6, h7, h8]

/-- C2 witness: a concrete descriptor named `"frame"` with the heap flag
set classifies as the frame decoder, not the heap-instance decoder. -/
theorem C2_classification_priority_witness :
    readTypeNameFlags frameHeapMem 20 = .ok ("frame", Py_TPFLAGS_HEAPTYPE)
    ∧ subclass_from_type frameHeapMem 20 = .frameK :=
  ⟨rfl, (C2_classification_priority frameHeapMem 20 "frame" Py_TPFLAGS_HEAPTYPE rfl).2.1 rfl⟩

/-- C8: a NULL top-level pointer reifies (under any classification
memory) to the base proxy whose rendering is the literal `0x0`, while any
other pointer that classifies as the base decoder renders as
`<tp_name at remote 0xADDR>`. -/
theorem C8_null_rendering (mem : Memory) (fuel : Nat) (vis : List Addr) (t : String) (a : Addr)
    (ha : a ≠ 0) :
    proxyval mem (fuel + 1) 0 vis = .ok (.fake "unknown" 0, vis)
    ∧ fakeRepr "unknown" 0 = "0x0"
    ∧ (classifyAddr mem a = .base →
        proxyval mem (fuel + 1) a vis = .ok (.fake (safe_tp_name mem a) a, vis))
    ∧ fakeRepr t a = "<" ++ t ++ " at remote 0x" ++ String.mk (Nat.toDigits 16 a) ++ ">" := by
  refine ⟨?_, rfl, ?_, ?_⟩
  · have hc : classifyAddr mem 0 = .base := by
      simp [classifyAddr, headerTypeAddr]
    have hn : safe_tp_name mem 0 = "unknown" := by
      simp [safe_tp_name, headerTypeAddr]
    simp [proxyval, hc, hn]
  · intro hc
    simp [proxyval, hc]
  · simp [fakeRepr, ha]

/-- C8 witness: the NULL pointer in a concrete memory renders `0x0`, and
a concrete unmapped nonzero pointer renders with its hex address. -/
theorem C8_null_rendering_witness :
    proxyval intFailMem 1 0 [] = .ok (.fake "unknown" 0, [])
    ∧ fakeRepr "unknown" 0 = "0x0"
    ∧ (classifyAddr intFailMem 77 = .base →
        proxyval intFailMem 1 77 [] = .ok (.fake (safe_tp_name intFailMem 77) 77, []))
    ∧ fakeRepr "unknown" 77 =
        "<" ++ "unknown" ++ " at remote 0x" ++ String.mk (Nat.toDigits 16 77) ++ ">" :=
  C8_null_rendering intFailMem 0 [] "unknown" 77 (by decide)

/-- C9: the current line number of a frame is the stored `f_lineno`
exactly when the trace hook is non-null, and otherwise is the line-table
lookup at the current instruction offset. -/
theorem C9_current_line (f : FrameRec) :
    (f.f_trace ≠ 0 → current_line_num f = f.f_lineno)
    ∧ (f.f_trace = 0 →
        current_line_num f = addr2line f.co_firstlineno f.co_lnotab f.f_lasti) := by
  constructor
  · intro h
    simp [current_line_num, h]
  · intro h
    simp [current_line_num, h]

/-- C9 witness: a traced frame reports the stored line 42; the same
fields untraced fall back to the table lookup. -/
theorem C9_current_line_witness :
    (frameTracedRec.f_trace ≠ 0 → current_line_num frameTracedRec = frameTracedRec.f_lineno)
    ∧ (frameUntracedRec.f_trace = 0 →
        current_line_num frameUntracedRec =
          addr2line frameUntracedRec.co_firstlineno frameUntracedRec.co_lnotab
            frameUntracedRec.f_lasti) :=
  ⟨(C9_current_line frameTracedRec).1, (C9_current_line frameUntracedRec).2⟩

/-- C6: the line lookup equals the first line number plus the line
deltas of the longest pair prefix whose accumulated address offset never
exceeds the query; in particular, a query at or past the total address
extent accumulates every line delta (the table being exhausted returns
the final accumulated line, never an error). -/
theorem C6_addr2line (first : Int) (table : List Nat) (q : Int) :
    addr2line first table q = first + lineDeltaSum (pairsUpTo q (lnotabPairs table) 0)
    ∧ ((((lnotabPairs table).map (fun p => ((p.1 : Nat) : Int))).sum ≤ q) →
        addr2line first table q = first + lineDeltaSum (lnotabPairs table)) := by
  constructor
  · exact addr2lineLoop_eq q (lnotabPairs table) 0 first
  · intro h
    unfold addr2line
    rw [addr2lineLoop_eq q (lnotabPairs table) 0 first,
      pairsUpTo_all q (lnotabPairs table) 0 (by omega)]

/-- C6 witness: for the table `[6, 1, 8, 1]` and first line 1, the
offset 50 lies past both pairs and yields line 3 = 1 + 1 + 1. -/
theorem C6_addr2line_witness :
    addr2line 1 [6, 1, 8, 1] 50 = 1 + lineDeltaSum (pairsUpTo 50 (lnotabPairs [6, 1, 8, 1]) 0)
    ∧ ((((lnotabPairs [6, 1, 8, 1]).map (fun p => ((p.1 : Nat) : Int))).sum ≤ 50) →
        addr2line 1 [6, 1, 8, 1] 50 = 1 + lineDeltaSum (lnotabPairs [6, 1, 8, 1]))
    ∧ addr2line 1 [6, 1, 8, 1] 50 = 3 :=
  ⟨(C6_addr2line 1 [6, 1, 8, 1] 50).1, (C6_addr2line 1 [6, 1, 8, 1] 50).2, rfl⟩

theorem safe_range_of_ge (n : Int) (h : 100 ≤ n) : safe_range n = List.range 100 := by
  unfold safe_range safety_limit
  rw [min_eq_right h]
  rfl

theorem safe_range_of_neg (n : Int) (h : n < 0) : safe_range n = [] := by
  unfold safe_range safety_limit
  have h1 : (min n 100).toNat = 0 := by omega
  rw [h1]
  rfl

theorem runSeq_length {α : Type} (step : α → List Addr → Res) (l : List α) :
    ∀ vis ps vis1, runSeq step l vis = .ok (ps, vis1) → ps.length = l.length := by
  induction l with
  | nil =>
    intro vis ps vis1 h
    simp only [runSeq, Except.ok.injEq, Prod.mk.injEq] at h
    rw [← h.1]
    rfl
  | cons a rest ih =>
    intro vis ps vis1 h
    simp only [runSeq] at h
    split at h
    · exact Except.noConfusion h
    · rename_i p vis2 heq
      split at h
      · exact Except.noConfusion h
      · rename_i ps2 vis3 heq2
        simp only [Except.ok.injEq, Prod.mk.injEq] at h
        rw [← h.1]
        simp [ih vis2 ps2 vis3 heq2]

theorem runDict_skips_null (readK readV : Nat → Except RErr Addr)
    (step : Addr → List Addr → Res) (l : List Nat) :
    ∀ vis acc,
      runDict readK readV step l vis acc =
        runDict readK readV step (l.filter (fun i => match readV i with | .ok 0 => false | _ => true)) vis acc := by
  induction l with
  | nil => intro vis acc; rfl
  | cons i rest ih =>
    intro vis acc
    by_cases hnull : readV i = .ok 0
    · have hf : (i :: rest).filter (fun j => match readV j with | .ok 0 => false | _ => true) =
          rest.filter (fun j => match readV j with | .ok 0 => false | _ => true) := by
        simp [List.filter, hnull]
      rw [hf]
      simp only [runDict, hnull]
      exact ih vis acc
    · have hf : (i :: rest).filter (fun j => match readV j with | .ok 0 => false | _ => true) =
          i :: rest.filter (fun j => match readV j with | .ok 0 => false | _ => true) := by
        simp [List.filter, hnull]
      rw [hf]
      rcases hval : readV i with e | vptr
      · simp only [runDict, hval]
      · have hv : vptr ≠ 0 := by
          rintro rfl
          exact hnull hval
        simp only [runDict, hval, if_neg hv]
        rcases hkey : readK i with e | kptr
        · simp only [hkey]
        · simp only [hkey]
          rcases hstep1 : step vptr vis with e | pr
          · simp only [hstep1]
          · obtain ⟨pval, vis1⟩ := pr
            simp only [hstep1]
            rcases hstep2 : step kptr vis1 with e | pr2
            · simp only [hstep2]
            · obtain ⟨pkey, vis2⟩ := pr2
              simp only [hstep2]
              exact ih vis2 _

theorem longMagSigned_eq_capped (shift : Nat) (n : Int) (ds : List Nat) (hn : n ≠ 0) :
    longMagSigned shift n ds = longValueCapped shift n ds := by
  unfold longMagSigned longValueCapped
  rw [if_neg hn]
  have h1 : safe_range ((n.natAbs : Nat) : Int) = List.range (min n.natAbs 100) := by
    unfold safe_range safety_limit
    congr 1
    omega
  rw [h1, sum_map_range]

/-- C4: any iteration driven by a foreign count is capped at the ceiling
100: for counts at least 100 the index range is exactly `[0, 100)`, every
iterated index is below 100, and the list and mapping decoders iterate
over exactly the first 100 element (or slot) indices, so no element read
is issued beyond the 100th and no truncation error is raised. -/
theorem C4_safety_ceiling :
    (∀ n : Int, 100 ≤ n → safe_range n = List.range 100)
    ∧ (∀ n : Int, (safe_range n).length ≤ 100 ∧ ∀ i ∈ safe_range n, i < 100)
    ∧ (∀ (mem : Memory) (fuel : Nat) (a : Addr) (vis : List Addr) (sz : Int),
        classifyAddr mem a = .listK → a ∉ vis → fieldObSize mem a = .ok sz → 100 ≤ sz →
        proxyval mem (fuel + 1) a vis =
          (match runSeq (fun i v =>
              match fieldItem mem a i with
              | .error e => .error (e, v)
              | .ok p => proxyval mem fuel p v) (List.range 100) (a :: vis) with
           | .error e => .error e
           | .ok (ps, vis1) => .ok (.seqv false ps, vis1)))
    ∧ (∀ (mem : Memory) (fuel : Nat) (a : Addr) (vis : List Addr) (m : Int),
        classifyAddr mem a = .dictK → a ∉ vis → fieldMaMask mem a = .ok m → 100 ≤ m + 1 →
        proxyval mem (fuel + 1) a vis =
          (match runDict (fieldSlotKey mem a) (fieldSlotValue mem a) (proxyval mem fuel)
              (List.range 100) (a :: vis) [] with
           | .error e => .error e
           | .ok (entries, vis1) => .ok (.mapv entries, vis1)))
    ∧ (∀ (step : Nat → List Addr → Res) (l : List Nat) (vis vis1 : List Addr) (ps : List Proxy),
        runSeq step l vis = .ok (ps, vis1) → ps.length = l.length) := by
  refine ⟨safe_range_of_ge, ?_, ?_, ?_, fun step l vis vis1 ps h => runSeq_length step l vis ps vis1 h⟩
  · intro n
    constructor
    · unfold safe_range safety_limit
      rw [List.length_range]
      omega
    · intro i hi
      unfold safe_range safety_limit at hi
      rw [List.mem_range] at hi
      omega
  · intro mem fuel a vis sz hk hnv hsz h100
    rw [← safe_range_of_ge sz h100]
    simp only [proxyval, hk]
    rw [if_neg hnv]
    simp only [hsz]
  · intro mem fuel a vis m hk hnv hm h100
    rw [← safe_range_of_ge (m + 1) h100]
    simp only [proxyval, hk]
    rw [if_neg hnv]
    simp only [hm]

/-- C4 witness: a count of 150 is clamped to the index range
`[0, 100)`. -/
theorem C4_safety_ceiling_witness :
    safe_range 150 = List.range 100 ∧ (safe_range 150).length ≤ 100 :=
  ⟨C4_safety_ceiling.1 150 (by decide), (C4_safety_ceiling.2.1 150).1⟩

/-- C10: a negative foreign element count (or a mask that makes
`mask + 1` negative) yields an empty index range, so the list, mapping
and set decoders iterate zero times and return their empty containers
without raising. -/
theorem C10_negative_counts :
    (∀ n : Int, n < 0 → safe_range n = [])
    ∧ (∀ (mem : Memory) (fuel : Nat) (a : Addr) (vis : List Addr) (sz : Int),
        classifyAddr mem a = .listK → a ∉ vis → fieldObSize mem a = .ok sz → sz < 0 →
        proxyval mem (fuel + 1) a vis = .ok (.seqv false [], a :: vis))
    ∧ (∀ (mem : Memory) (fuel : Nat) (a : Addr) (vis : List Addr) (m : Int),
        classifyAddr mem a = .dictK → a ∉ vis → fieldMaMask mem a = .ok m → m + 1 < 0 →
        proxyval mem (fuel + 1) a vis = .ok (.mapv [], a :: vis))
    ∧ (∀ (mem : Memory) (fuel : Nat) (a : Addr) (vis : List Addr) (table : List Addr) (m : Int),
        classifyAddr mem a = .setK → a ∉ vis → fieldSetTable mem a = .ok table →
        fieldSetMask mem a = .ok m → m + 1 < 0 →
        proxyval mem (fuel + 1) a vis =
          .ok (.setv (safe_tp_name mem a == "frozenset") [], a :: vis)) := by
  refine ⟨safe_range_of_neg, ?_, ?_, ?_⟩
  · intro mem fuel a vis sz hk hnv hsz hneg
    simp only [proxyval, hk]
    rw [if_neg hnv]
    simp only [hsz, safe_range_of_neg sz hneg]
    rfl
  · intro mem fuel a vis m hk hnv hm hneg
    simp only [proxyval, hk]
    rw [if_neg hnv]
    simp only [hm, safe_range_of_neg (m + 1) hneg]
    rfl
  · intro mem fuel a vis table m hk hnv ht hm hneg
    simp only [proxyval, hk]
    rw [if_neg hnv]
    simp only [ht, hm, safe_range_of_neg (m + 1) hneg]
    rfl

/-- C10 witness: a concrete list with `ob_size = -5` reifies to the
empty sequence with no error. -/
theorem C10_negative_counts_witness :
    proxyval negListMem 1 5 [] = .ok (.seqv false [], [5]) :=
  C10_negative_counts.2.1 negListMem 0 5 [] (-5) rfl (by simp) rfl (by decide)

theorem longBigDigits_getD (i : Nat) (h : i < 100) : longBigDigits.getD i 0 = 0 := by
  unfold longBigDigits
  rw [List.getD_append _ _ _ _ (by simpa using h)]
  rw [List.getD_eq_getElem _ _ (by simpa using h)]
  exact List.getElem_replicate _ _

/-- C5 counterexample: a big integer whose digit-count field reads 101
decodes to 0 (digits at index 100 lie past the safety ceiling and are
never read), while the claim's uncapped digit sum over `[0, 101)` is
strictly positive — so the decoded value does not equal the claimed sum
once `|n|` exceeds the ceiling. -/
theorem C5_counterexample :
    reify longBigMem 1 = .ok (.intv (longMagSigned 15 101 longBigDigits), [])
    ∧ longMagSigned 15 101 longBigDigits = 0
    ∧ 0 < longValueClaim 15 101 longBigDigits := by
  refine ⟨rfl, ?_, ?_⟩
  · have h1 : safe_range ((((101 : Int).natAbs : Nat)) : Int) = List.range 100 := by
      exact safe_range_of_ge _ (by decide)
    simp only [longMagSigned, h1, if_neg (by decide : ¬ (101 : Int) < 0)]
    apply List.sum_eq_zero
    intro x hx
    obtain ⟨i, hi, rfl⟩ := List.mem_map.1 hx
    rw [List.mem_range] at hi
    rw [longBigDigits_getD i hi]
    simp
  · simp only [longValueClaim, if_neg (by decide : ¬ (101 : Int) = 0),
      if_neg (by decide : ¬ (101 : Int) < 0)]
    apply Finset.sum_pos'
    · intro i hi
      exact mul_nonneg (Int.ofNat_nonneg _) (pow_nonneg (by decide) _)
    · refine ⟨100, Finset.mem_range.2 (by decide), ?_⟩
      rw [show longBigDigits.getD 100 0 = 1 by decide]
      simp only [Nat.cast_one, one_mul]
      exact pow_pos (by decide) _

/-- C5 (amended): for every big-integer object with a successful
digit-count and digit-array read, the decoded value is the digit sum
over the safety-capped index range `[0, min |n| 100)` weighted by
`2^(SHIFT*i)` and negated exactly when `n < 0`; a digit count of zero
decodes to exactly 0 regardless of the digits, and SHIFT is 15 when the
digit type is 2 bytes wide and 30 otherwise. -/
theorem C5_long_decoder (mem : Memory) (fuel : Nat) (a : Addr) (vis : List Addr)
    (n : Int) (ds : List Nat)
    (hk : classifyAddr mem a = .longK) (hn : fieldObSize mem a = .ok n)
    (hd : fieldDigits mem a = .ok ds) :
    proxyval mem (fuel + 1) a vis =
      .ok (.intv (longValueCapped (pyLongShift mem.digitSize) n ds), vis)
    ∧ longValueCapped (pyLongShift mem.digitSize) 0 ds = 0
    ∧ (mem.digitSize = 2 → pyLongShift mem.digitSize = 15)
    ∧ (mem.digitSize ≠ 2 → pyLongShift mem.digitSize = 30) := by
  refine ⟨?_, by simp [longValueCapped], fun h => by simp [pyLongShift, h],
    fun h => by simp [pyLongShift, h]⟩
  by_cases hz : n = 0
  · subst hz
    simp [proxyval, hk, hn, longValueCapped]
  · simp only [proxyval, hk, hn, if_neg hz, hd]
    rw [longMagSigned_eq_capped _ _ _ hz]

/-- C5 witness: the three-digit big integer `[1, 2, 3]` at SHIFT 15
decodes to `1 + 2*2^15 + 3*2^30 = 3221291009`. -/
theorem C5_long_decoder_witness :
    proxyval longOkMem 1 1 [] =
      .ok (.intv (longValueCapped (pyLongShift longOkMem.digitSize) 3 [1, 2, 3]), [])
    ∧ longValueCapped (pyLongShift longOkMem.digitSize) 3 [1, 2, 3] = 3221291009 :=
  ⟨(C5_long_decoder longOkMem 0 1 [] 3 [1, 2, 3] rfl rfl rfl).1, by decide⟩

/-- C7: the mapping decoder iterates exactly the safety-bounded slot
index range `[0, mask+1)`, skips precisely the slots whose value pointer
reads as NULL, and reifies both key and value of every remaining slot;
concretely a table with one live slot holding key `"a"` and value `1`
and all other slots empty reifies to the one-entry mapping. -/
theorem C7_dict_decoder :
    (∀ (mem : Memory) (fuel : Nat) (a : Addr) (vis : List Addr) (m : Int),
        classifyAddr mem a = .dictK → a ∉ vis → fieldMaMask mem a = .ok m →
        proxyval mem (fuel + 1) a vis =
          (match runDict (fieldSlotKey mem a) (fieldSlotValue mem a) (proxyval mem fuel)
              (safe_range (m + 1)) (a :: vis) [] with
           | .error e => .error e
           | .ok (entries, vis1) => .ok (.mapv entries, vis1)))
    ∧ (∀ (readK readV : Nat → Except RErr Addr) (step : Addr → List Addr → Res)
          (l : List Nat) (vis : List Addr) (acc : List (Proxy × Proxy)),
        runDict readK readV step l vis acc =
          runDict readK readV step
            (l.filter (fun i => match readV i with | .ok 0 => false | _ => true)) vis acc)
    ∧ reify dictExMem 7 = .ok (.mapv [(.strv "a", .intv 1)], [7]) := by
  refine ⟨?_, runDict_skips_null, rfl⟩
  intro mem fuel a vis m hk hnv hm
  simp only [proxyval, hk]
  rw [if_neg hnv]
  simp only [hm]

/-- C7 witness: the decoder equation instantiated at the concrete
one-live-slot table. -/
theorem C7_dict_decoder_witness :
    proxyval dictExMem 1 7 [] =
      (match runDict (fieldSlotKey dictExMem 7) (fieldSlotValue dictExMem 7)
          (proxyval dictExMem 0) (safe_range (7 + 1)) (7 :: []) [] with
       | .error e => .error e
       | .ok (entries, vis1) => .ok (.mapv entries, vis1)) :=
  C7_dict_decoder.1 dictExMem 0 7 [] 7 rfl (by simp) rfl

/-- C1 counterexample: an integer object whose `ob_ival` read fails is
classified as the integer decoder, and the top-level reification entry
point surfaces that read failure as an escaping exception rather than
any fallback proxy value — a caller above the decoder layer does observe
a foreign-read failure. -/
theorem C1_counterexample :
    classifyAddr intFailMem 1 = .intK
    ∧ reify intFailMem 1 = .error (.readFail, []) := ⟨rfl, rfl⟩

/-- C1 (amended): the dispatcher catches read failures — a failing
header read or type-descriptor read falls back to the base decoder,
which never raises — and the heap-instance decoder catches non-assert
failures around its attribute-dict walk, substituting an empty attribute
dict; but the scalar and container decoders propagate read failures to
their caller: the integer decoder re-raises a failing `ob_ival` read and
the mapping decoder a failing `ma_mask` read. -/
theorem C1_error_propagation (mem : Memory) (fuel : Nat) (a : Addr) (vis : List Addr) :
    (∀ e, headerTypeAddr mem a = .error e → classifyAddr mem a = .base)
    ∧ (∀ e, readTypeNameFlags mem a = .error e → subclass_from_type mem a = .base)
    ∧ (classifyAddr mem a = .base →
        proxyval mem (fuel + 1) a vis = .ok (.fake (safe_tp_name mem a) a, vis))
    ∧ (∀ e visE, classifyAddr mem a = .heapK → a ∉ vis →
        heapAttempt mem (proxyval mem fuel) a (a :: vis) = .error (e, visE) →
        e ≠ .assertFail →
        proxyval mem (fuel + 1) a vis =
          .ok (.instv (.strv (safe_tp_name mem a)) (.mapv []) a, visE))
    ∧ (∀ e, classifyAddr mem a = .intK → fieldIval mem a = .error e →
        proxyval mem (fuel + 1) a vis = .error (e, vis))
    ∧ (∀ e, classifyAddr mem a = .dictK → a ∉ vis → fieldMaMask mem a = .error e →
        proxyval mem (fuel + 1) a vis = .error (e, a :: vis)) := by
  refine ⟨?_, ?_, ?_, ?_, ?_, ?_⟩
  · intro e he
    simp [classifyAddr, he]
  · intro e he
    simp [subclass_from_type, he]
  · intro hc
    simp [proxyval, hc]
  · intro e visE hk hnv hha hne
    simp only [proxyval, hk]
    rw [if_neg hnv]
    simp only [hha]
  · intro e hk he
    simp [proxyval, hk, he]
  · intro e hk hnv he
    simp only [proxyval, hk]
    rw [if_neg hnv]
    simp [he]

/-- C1 witness: the amended propagation facts at the concrete
failing-integer memory — the read failure escapes the decoder. -/
theorem C1_error_propagation_witness :
    proxyval intFailMem 1 1 [] = .error (.readFail, []) :=
  (C1_error_propagation intFailMem 0 1 []).2.2.2.2.1 .readFail rfl rfl

theorem proxyval_visited_insert (mem : Memory) (fuel : Nat) (a : Addr) (vis : List Addr)
    (hck : containerKind (classifyAddr mem a) = true) (hnv : a ∉ vis) :
    a ∈ visOut (proxyval mem (fuel + 1) a vis) := by
  have hmem : a ∈ a :: vis := List.mem_cons_self a vis
  have hstepList : ∀ (i : Nat) (v : List Addr), v ⊆ visOut
      (match fieldItem mem a i with
       | .error e => .error (e, v)
       | .ok p => proxyval mem fuel p v) := by
    intro i v
    split
    · exact List.Subset.refl v
    · rename_i p heq
      exact proxyval_vis_mono mem fuel p v
  rcases hk : classifyAddr mem a with _ | _ | _ | _ | _ | _ | _ | _ | _ | _ | _ | _ | _ | _ | _ | _
  case base => rw [hk] at hck; exact Bool.noConfusion hck
  case boolK => rw [hk] at hck; exact Bool.noConfusion hck
  case classK => rw [hk] at hck; exact Bool.noConfusion hck
  case noneK => rw [hk] at hck; exact Bool.noConfusion hck
  case frameK => rw [hk] at hck; exact Bool.noConfusion hck
  case heapK =>
    simp only [proxyval, hk]
    rw [if_neg hnv]
    have hm := heapAttempt_vis_mono mem (proxyval mem fuel) (proxyval_vis_mono mem fuel) a (a :: vis)
    split
    · rename_i d vis1 heq
      rw [heq] at hm
      exact hm hmem
    · rename_i visE heq
      rw [heq] at hm
      exact hm hmem
    · rename_i e visE hne heq
      rw [heq] at hm
      exact hm hmem
  case intK => rw [hk] at hck; exact Bool.noConfusion hck
  case longK => rw [hk] at hck; exact Bool.noConfusion hck
  case listK =>
    simp only [proxyval, hk]
    rw [if_neg hnv]
    split
    · exact hmem
    · rename_i sz heqsz
      have hm := runSeq_vis_mono _ hstepList (safe_range sz) (a :: vis)
      split
      · rename_i e heq
        rw [heq] at hm
        exact hm hmem
      · rename_i ps vis1 heq
        rw [heq] at hm
        exact hm hmem
  case tupleK =>
    simp only [proxyval, hk]
    rw [if_neg hnv]
    split
    · exact hmem
    · rename_i sz heqsz
      have hm := runSeq_vis_mono _ hstepList (safe_range sz) (a :: vis)
      split
      · rename_i e heq
        rw [heq] at hm
        exact hm hmem
      · rename_i ps vis1 heq
        rw [heq] at hm
        exact hm hmem
  case stringK => rw [hk] at hck; exact Bool.noConfusion hck
  case unicodeK => rw [hk] at hck; exact Bool.noConfusion hck
  case dictK =>
    simp only [proxyval, hk]
    rw [if_neg hnv]
    split
    · exact hmem
    · rename_i m heqm
      have hm := runDict_vis_mono (fieldSlotKey mem a) (fieldSlotValue mem a)
        (proxyval mem fuel) (proxyval_vis_mono mem fuel) (safe_range (m + 1)) (a :: vis) []
      split
      · rename_i e heq
        rw [heq] at hm
        exact hm hmem
      · rename_i entries vis1 heq
        rw [heq] at hm
        exact hm hmem
  case setK =>
    simp only [proxyval, hk]
    rw [if_neg hnv]
    split
    · exact hmem
    · rename_i table heqt
      split
      · exact hmem
      · rename_i m heqm
        have hm := runSet_vis_mono (fun i => table.getD i 0)
          (proxyval mem fuel) (proxyval_vis_mono mem fuel) (safe_range (m + 1)) (a :: vis) []
        split
        · rename_i e heq
          rw [heq] at hm
          exact hm hmem
        · rename_i ms vis1 heq
          rw [heq] at hm
          exact hm hmem
  case instK =>
    simp only [proxyval, hk]
    rw [if_neg hnv]
    split
    · exact hmem
    · rename_i inClassAddr heqc
      split
      · exact hmem
      · rename_i clNameAddr heqn
        have hm1 := proxyval_vis_mono mem fuel clNameAddr (a :: vis)
        split
        · rename_i e heq
          rw [heq] at hm1
          exact hm1 hmem
        · rename_i clName vis1 heq
          rw [heq] at hm1
          have ha1 : a ∈ vis1 := hm1 hmem
          split
          · exact ha1
          · rename_i inDictAddr heqd
            have hm2 := proxyval_vis_mono mem fuel inDictAddr vis1
            split
            · rename_i e heq2
              rw [heq2] at hm2
              exact hm2 ha1
            · rename_i d vis2 heq2
              rw [heq2] at hm2
              exact hm2 ha1
  case excK =>
    simp only [proxyval, hk]
    rw [if_neg hnv]
    split
    · exact hmem
    · rename_i argsAddr heqa
      have hm := proxyval_vis_mono mem fuel argsAddr (a :: vis)
      split
      · rename_i e heq
        rw [heq] at hm
        exact hm hmem
      · rename_i ap vis1 heq
        rw [heq] at hm
        exact hm hmem

/-- C3: over any finite memory, reification terminates — at any fuel
beyond the number of unvisited mapped addresses the result has
stabilised —; the visited set only ever grows (an inserted address is
never removed); an address already in the visited set makes each
container decoder return the already-visited placeholder with its
type-appropriate ellipsis rendering; and every container decoder inserts
its own address into the visited set before recursing (the address is in
the final visited set). -/
theorem C3_cycle_guard (mem : Memory) (fuel : Nat) (a : Addr) (vis : List Addr)
    (h : unvisited mem vis < fuel) :
    (proxyval mem fuel a vis = proxyval mem (unvisited mem vis + 1) a vis)
    ∧ vis ⊆ visOut (proxyval mem fuel a vis)
    ∧ (classifyAddr mem a = .listK → a ∈ vis →
        proxyval mem fuel a vis = .ok (.visitedv "[...]", vis))
    ∧ (classifyAddr mem a = .tupleK → a ∈ vis →
        proxyval mem fuel a vis = .ok (.visitedv "(...)", vis))
    ∧ (classifyAddr mem a = .dictK → a ∈ vis →
        proxyval mem fuel a vis = .ok (.visitedv "\x7b...\x7d", vis))
    ∧ (classifyAddr mem a = .setK → a ∈ vis →
        proxyval mem fuel a vis = .ok (.visitedv (safe_tp_name mem a ++ "(...)"), vis))
    ∧ (classifyAddr mem a = .heapK → a ∈ vis →
        proxyval mem fuel a vis = .ok (.visitedv "<...>", vis))
    ∧ (classifyAddr mem a = .instK → a ∈ vis →
        proxyval mem fuel a vis = .ok (.visitedv "<...>", vis))
    ∧ (classifyAddr mem a = .excK → a ∈ vis →
        proxyval mem fuel a vis = .ok (.visitedv "(...)", vis))
    ∧ (containerKind (classifyAddr mem a) = true → a ∉ vis →
        a ∈ visOut (proxyval mem fuel a vis)) := by
  obtain ⟨fuel, rfl⟩ : ∃ f, fuel = f + 1 := ⟨fuel - 1, by omega⟩
  refine ⟨proxyval_stable mem _ _ a vis h (by omega),
    proxyval_vis_mono mem _ a vis, ?_, ?_, ?_, ?_, ?_, ?_, ?_,
    fun hck hnv => proxyval_visited_insert mem fuel a vis hck hnv⟩
  all_goals intro hk hin
  all_goals simp [proxyval, hk, hin]

/-- C3 witness: a concrete instance whose attribute dict maps `"x"` back
to the instance itself — the reification stabilises, and evaluating it
shows the cyclic reference rendered as the `<...>` placeholder. -/
theorem C3_cycle_guard_witness :
    (unvisited cycMem [] < 10
      ∧ proxyval cycMem 10 3 [] = proxyval cycMem (unvisited cycMem [] + 1) 3 [])
    ∧ reify cycMem 3 =
        .ok (.instv (.strv "Foo") (.mapv [(.strv "x", .visitedv "<...>")]) 3, [7, 3]) :=
  ⟨⟨by decide, (C3_cycle_guard cycMem 10 3 [] (by decide)).1⟩, rfl⟩

end PyGdb
